import Mathlib

/-!
# wlgamma

A shallow embedding of `src/main.c` (the whole program is this one file) and the
properties of it that the specification states.

* `float` is IEEE 754 binary32, embedded over `ℚ`: a finite datum is a sign and a
  magnitude, every operation rounds its exact result to nearest, ties to even.
* `powf` comes from the C library. It is a parameter of every definition that
  calls it; `PowfSpec` lists the results the theorems rely on.
* The Wayland compositor and the operating system are an `Env`: the events each
  round trip dispatches and the value each library call returns.
* The global variables of `main.c` are the fields of `State`; `State.log` records
  the library calls and the output of a run in order.
-/

namespace Wlgamma

/-! ## Machine integers -/

/-- Value of `UINT16_MAX` (`stdint.h`). -/
def UINT16_MAX : Nat := 65535

/-- Number of values of `uint32_t` (and of `unsigned int`). -/
def UINT32_MOD : Nat := 2 ^ 32

/-- Value of `MAP_FAILED` (`sys/mman.h`), `(void*)-1`, as a 64-bit address. -/
def MAP_FAILED : Nat := 2 ^ 64 - 1

/-- The constant `channel_count` of `main.c`. -/
def channel_count : Nat := 3

/-- Conversion of an `unsigned long` to `int` as `output_index = strtoul(...)`
performs it: the low 32 bits, read as two's complement. -/
def int_of_ulong (u : Nat) : Int :=
  if u % 2 ^ 32 < 2 ^ 31 then ((u % 2 ^ 32 : Nat) : Int) else ((u % 2 ^ 32 : Nat) : Int) - 2 ^ 32

/-! ## Single precision -/

/-- A `float`: not-a-number, an infinity, or a finite datum `(-1)^neg * mag` with
`0 ≤ mag` (both zeros exist: `fin false 0` and `fin true 0`). -/
inductive F32
  | nan
  | inf (neg : Bool)
  | fin (neg : Bool) (mag : ℚ)
  deriving DecidableEq

/-- Floor of the base-2 logarithm of a positive natural number, by halving. -/
def log2Fuel : Nat → Nat → Nat
  | 0, _ => 0
  | fuel + 1, n => if n < 2 then 0 else log2Fuel fuel (n / 2) + 1

/-- Floor of the base-2 logarithm of a positive rational. -/
def ilog2 (q : ℚ) : ℤ :=
  if (2 : ℚ) ^ ((log2Fuel q.num.toNat q.num.toNat : ℤ) - (log2Fuel q.den q.den : ℤ)) ≤ q then
    (log2Fuel q.num.toNat q.num.toNat : ℤ) - (log2Fuel q.den q.den : ℤ)
  else
    (log2Fuel q.num.toNat q.num.toNat : ℤ) - (log2Fuel q.den q.den : ℤ) - 1

/-- Exponent of the unit in the last place of binary32 at magnitude `q`: 24
significant bits, the exponent never below that of the subnormals. -/
def ulpExp (q : ℚ) : ℤ := max (ilog2 q) (-126) - 23

/-- Nearest integer, a tie going to the even one. -/
def rne (x : ℚ) : ℤ :=
  if x - ⌊x⌋ < 1 / 2 then ⌊x⌋
  else if 1 / 2 < x - ⌊x⌋ then ⌊x⌋ + 1
  else if ⌊x⌋ % 2 = 0 then ⌊x⌋ else ⌊x⌋ + 1

/-- Magnitude `q` rounded to the binary32 grid (exponent range unbounded above). -/
def rnd (q : ℚ) : ℚ := rne (q / 2 ^ ulpExp q) * 2 ^ ulpExp q

namespace F32

/-- The datum of sign `neg` nearest to magnitude `q`; overflow gives an infinity. -/
def ofMag (neg : Bool) (q : ℚ) : F32 :=
  if rnd q < 2 ^ 128 then fin neg (rnd q) else inf neg

/-- The constant `1.0f`. -/
def one : F32 := fin false 1

/-- Conversion of an unsigned integer to `float`. -/
def ofNat (n : Nat) : F32 := ofMag false n

/-- The operator `*` on `float`. -/
def mul : F32 → F32 → F32
  | nan, _ => nan
  | _, nan => nan
  | inf s, inf t => inf (xor s t)
  | inf s, fin t b => if b = 0 then nan else inf (xor s t)
  | fin s a, inf t => if a = 0 then nan else inf (xor s t)
  | fin s a, fin t b => ofMag (xor s t) (a * b)

/-- The operator `/` on `float`. -/
def div : F32 → F32 → F32
  | nan, _ => nan
  | _, nan => nan
  | inf _, inf _ => nan
  | inf s, fin t _ => inf (xor s t)
  | fin s _, inf t => fin (xor s t) 0
  | fin s a, fin t b =>
    if b = 0 then (if a = 0 then nan else inf (xor s t)) else ofMag (xor s t) (a / b)

/-- The operator `==` on `float`: a NaN equals nothing, the two zeros are equal. -/
def eq : F32 → F32 → Bool
  | fin s a, fin t b => (a = 0 ∧ b = 0) ∨ (s = t ∧ a = b)
  | inf s, inf t => s = t
  | _, _ => false

/-- Conversion of a `float` to `uint16_t` (C11 6.3.1.4): the fraction is dropped;
when the integral part is not a value of `uint16_t` the behaviour is undefined,
which is `none` here. No value is clamped. -/
def to_uint16 : F32 → Option Nat
  | fin false m => if m < 65536 then some ⌊m⌋₊ else none
  | fin true m => if m < 1 then some 0 else none
  | _ => none

/-- Strictly positive: a positive finite datum or `+∞`. -/
def isPos : F32 → Prop
  | fin false m => 0 < m
  | inf false => True
  | _ => False

/-- Strictly negative: a negative finite datum or `-∞`. -/
def isNeg : F32 → Prop
  | fin true m => 0 < m
  | inf true => True
  | _ => False

end F32

/-- What the theorems below assume of the C library's `powf`: results fixed by
C11 Annex F.10.4.4 (`pow(x, ±0) = 1` for every `x`, a NaN included; `pow(±0, y)`
is a zero for `y > 0` and an infinity for `y < 0`; a NaN base with a nonzero
exponent gives a NaN), and `pow(x, 1) = x`, whose exact result is a `float`. -/
structure PowfSpec (powf : F32 → F32 → F32) : Prop where
  exp_one : ∀ x, powf x F32.one = x
  exp_zero : ∀ x s, powf x (F32.fin s 0) = F32.one
  zero_pos : ∀ s y, F32.isPos y → ∃ t, powf (F32.fin s 0) y = F32.fin t 0
  zero_neg : ∀ s y, F32.isNeg y → ∃ t, powf (F32.fin s 0) y = F32.inf t
  nan_base : ∀ y, (∀ s, y ≠ F32.fin s 0) → powf F32.nan y = F32.nan

/-- One function that meets `PowfSpec`: exactly the fixed results above. At every
other pair of arguments the value of a real `powf` depends on the library; this
instance is only ever evaluated at the fixed ones. -/
def powf_fixed (x y : F32) : F32 :=
  match y with
  | F32.fin s m =>
    if m = 0 then F32.one
    else if s = false ∧ m = 1 then x
    else
      match x with
      | F32.fin _ a =>
        if a = 0 then (if s = false then F32.fin false 0 else F32.inf false) else F32.nan
      | _ => F32.nan
  | F32.inf s =>
    match x with
    | F32.fin _ a =>
      if a = 0 then (if s = false then F32.fin false 0 else F32.inf false) else F32.nan
    | _ => F32.nan
  | F32.nan => F32.nan

/-! ## The gamma table -/

/-- The memory `shm_data` points to, in `uint16_t` cells. A cell holds `none`
when its content is not defined by the C standard. -/
abbrev Shm := Nat → Option Nat

/-- The function `gamma_table_size`: `channel_count * sizeof(uint16_t) *
gamma_size`, returned as a `uint32_t`. -/
def gamma_table_size (gamma_size : Nat) : Nat :=
  (channel_count * 2 * gamma_size) % UINT32_MOD

/-- The `float` on the right of the assignment in the loop of `fill_gamma_ramp`:
`UINT16_MAX * powf((i / (float)(gamma_size - 1)) * component, 1.0f / gamma)`,
`gamma_size - 1` being computed in `uint32_t`. -/
def ramp_value (powf : F32 → F32 → F32) (gamma_size : Nat) (component gamma : F32)
    (i : Nat) : F32 :=
  F32.mul (F32.ofNat UINT16_MAX)
    (powf
      (F32.mul
        (F32.div (F32.ofNat i) (F32.ofNat ((gamma_size + UINT32_MOD - 1) % UINT32_MOD)))
        component)
      (F32.div F32.one gamma))

/-- The function `fill_gamma_ramp`; `ramp` is the offset of its first argument
from `shm_data`, in cells. The assignment converts the `float` to `uint16_t`. -/
def fill_gamma_ramp (powf : F32 → F32 → F32) (gamma_size : Nat) (shm : Shm) (ramp : Nat)
    (component gamma : F32) : Shm :=
  (List.range gamma_size).foldl
    (fun m i =>
      Function.update m (ramp + i)
        (F32.to_uint16 (ramp_value powf gamma_size component gamma i)))
    shm

/-- The function `fill_gamma_table`. The offset `gamma_size * i` is a product of
a `uint32_t` and an `int`, hence computed in `unsigned int`. -/
def fill_gamma_table (powf : F32 → F32 → F32) (gamma_size : Nat) (shm : Shm)
    (components : Nat → F32) (gamma : F32) : Shm :=
  (List.range channel_count).foldl
    (fun m i =>
      fill_gamma_ramp powf gamma_size m ((gamma_size * i) % UINT32_MOD) (components i) gamma)
    shm

/-! ## Program state, environment and observable actions -/

/-- A library call or a piece of output, in the order a run performs them. -/
inductive Act
  | stdout (text : String)
  | stderr (text : String)
  | wl_display_connect
  | wl_display_get_registry
  | wl_display_roundtrip
  | get_gamma_control (output : Option Nat)
  | shm_open
  | shm_unlink
  | ftruncate (length : Nat)
  | mmap (length : Nat)
  | fill_gamma_table
  | set_gamma (fd : Int)
  | munmap (length : Nat)
  | close (fd : Int)
  | wl_output_destroy (output : Nat)
  | gamma_control_destroy
  | gamma_control_manager_destroy
  | wl_registry_destroy
  | wl_display_disconnect
  deriving DecidableEq

/-- The global variables of `main.c` (pointers are addresses, `0` is `NULL`),
the content of the shared memory, and the log of actions. -/
structure State where
  display : Nat
  registry : Nat
  output_count : Nat
  outputs : List Nat
  output_names : List (Option String)
  gamma_control_manager : Nat
  gamma_control : Nat
  gamma_size : Nat
  shm_fd : Int
  shm_data : Nat
  shm : Shm
  log : List Act

/-- The initial values of the global variables. -/
def State.init : State :=
  { display := 0, registry := 0, output_count := 0, outputs := [], output_names := [],
    gamma_control_manager := 0, gamma_control := 0, gamma_size := 0, shm_fd := -1,
    shm_data := 0, shm := fun _ => none, log := [] }

/-- Appends one action to the log. -/
def State.emit (s : State) (a : Act) : State := { s with log := s.log ++ [a] }

/-- An event the compositor sends. A `global` carries the proxy address that
`wl_registry_bind` returns for it; the `size` of a `gamma_size` is a `uint32_t`. -/
inductive Event
  | global (id : Nat) (interface : String) (version : Nat) (proxy : Nat)
  | output_name (output : Nat) (name : String)
  | gamma_size (size : Nat)
  | failed

/-- The compositor and the operating system: the events dispatched by the k-th
call of `wl_display_roundtrip`, the values the library calls return, and the
number of iterations of the final loop before `quit` is set (`none`: never). -/
structure Env where
  connect : Nat
  get_registry : Nat
  events : Nat → List Event
  get_gamma_control : Nat
  shm_open : Int
  shm_unlink : Int
  ftruncate : Int
  mmap : Nat
  errno : Int
  loop : Option Nat

/-- Modelled from the spec: the interface name of the gamma-control manager
capability, `zwlr_gamma_control_manager_v1_interface.name`. Its declaration is in
the generated protocol header `wlr-gamma-control.h`, which is not under `src/`; the
value is the name the protocol gives the interface. -/
def zwlr_gamma_control_manager_v1_name : String := "zwlr_gamma_control_manager_v1"

/-- Modelled from the spec: the interface name of a display output,
`wl_output_interface.name`. Its declaration is in `wayland-client.h`, which is not
under `src/`; the value is the name the protocol gives the interface. -/
def wl_output_name : String := "wl_output"

/-! ## Listeners -/

/-- The function `on_output_name`. -/
def on_output_name (s : State) (output : Nat) (name : String) : State :=
  (List.range s.output_count).foldl
    (fun st i =>
      if st.outputs.get? i = some output then
        { st with output_names := st.output_names.set i (some name) }
      else st)
    s

/-- The function `on_registry_global`; `proxy` is what `wl_registry_bind`
returns. Both `memcpy` calls copy `output_count` entries. -/
def on_registry_global (s : State) (_id : Nat) (interface : String) (_version : Nat)
    (proxy : Nat) : State :=
  if interface = zwlr_gamma_control_manager_v1_name then
    { s with gamma_control_manager := proxy }
  else if interface = wl_output_name then
    { s with
      outputs := s.outputs.take s.output_count ++ [proxy]
      output_names := s.output_names.take s.output_count ++ [none]
      output_count := s.output_count + 1 }
  else s

/-- The function `on_gamma_control_gamma_size`. -/
def on_gamma_control_gamma_size (s : State) (size : Nat) : State :=
  { s with gamma_size := size }

/-- The text `on_gamma_control_failed` writes. -/
def msg_failed : String := "Gamma control failure reported by Wayland server.\n"

/-- The function `on_gamma_control_failed`: it only writes its message. -/
def on_gamma_control_failed (s : State) : State :=
  s.emit (Act.stderr msg_failed)

/-- Dispatch of one event to its listener. The events of a gamma control reach
a listener only once the control exists. -/
def dispatch (s : State) : Event → State
  | Event.global id interface version proxy => on_registry_global s id interface version proxy
  | Event.output_name output name => on_output_name s output name
  | Event.gamma_size size =>
    if s.gamma_control = 0 then s else on_gamma_control_gamma_size s size
  | Event.failed => if s.gamma_control = 0 then s else on_gamma_control_failed s

/-- The k-th call of `wl_display_roundtrip`. -/
def wl_display_roundtrip (env : Env) (k : Nat) (s : State) : State :=
  (env.events k).foldl dispatch (s.emit Act.wl_display_roundtrip)

/-! ## Output -/

/-- The text `display_help` prints. -/
def help_text : String :=
  "wlgamma [options]\n" ++
  "\t-h\t\tDisplay this help information.\n" ++
  "\t-v\t\tDisplay version information.\n\n" ++
  "\t-l\t\tList all Wayland outputs and exit.\n" ++
  "\t-o index\tTarget a particular Wayland output.\n\n" ++
  "\t-r value\tSet the red channel multiplier (default: 1.0).\n" ++
  "\t-g value\tSet the green channel multiplier (default: 1.0).\n" ++
  "\t-b value\tSet the blue channel multiplier (default: 1.0).\n" ++
  "\t-G value\tSet the gamma (default: 1.0).\n"

/-- The text `display_version` prints. -/
def version_text : String :=
  "wlgamma 0.1.0\n" ++
  "Copyright 2025 Amini Allight\n\n" ++
  "This program comes with ABSOLUTELY NO WARRANTY; This is free software, and you are welcome to redistribute it under certain conditions. See the included license for further details.\n"

/-- The function `display_help`. -/
def display_help (s : State) : State := s.emit (Act.stdout help_text)

/-- The function `display_version`. -/
def display_version (s : State) : State := s.emit (Act.stdout version_text)

/-- The function `display_outputs`, with its return value. -/
def display_outputs (env : Env) (s : State) : State × Int :=
  let s := s.emit (Act.stdout "Outputs:\n")
  let s : State := { s.emit Act.wl_display_connect with display := env.connect }
  if s.display = 0 then
    (s.emit (Act.stderr "Failed to connect to Wayland server.\n"), 1)
  else
    let s : State := { s.emit Act.wl_display_get_registry with registry := env.get_registry }
    let s := wl_display_roundtrip env 0 s
    let s := wl_display_roundtrip env 1 s
    let s := if s.output_count = 0 then s.emit (Act.stdout "\tNo outputs available.") else s
    ((List.range s.output_count).foldl
      (fun st i =>
        st.emit (Act.stdout ("\t" ++ toString i ++ ": " ++
          ((st.output_names.getD i none).getD "No output name provided.") ++ "\n")))
      s, 0)

/-! ## Error messages of `main` -/

/-- Message for a missing gamma-control manager. -/
def msg_no_manager : String :=
  "The Wayland server does not provide zwlr_gamma_control_manager_v1.\n"

/-- Message for an empty output list. -/
def msg_no_outputs : String := "The Wayland server did not provide any outputs.\n"

/-- Message for an index not below the output count. -/
def msg_no_index (output_index : Int) : String :=
  "The Wayland server did not provide output with index '" ++ toString output_index ++ "'.\n"

/-- Message for a `NULL` gamma control. -/
def msg_no_control : String := "Failed to create a zwlr_gamma_control_v1.\n"

/-- Message for a ramp size that is still zero. -/
def msg_no_size : String := "Failed to get gamma table size.\n"

/-! ## Command line -/

/-- One return value of `getopt(argc, argv, "hvlo:r:g:b:G:")` with its `optarg`
and what `strtoul` or `strtof` makes of it (`none`: no character was converted,
`end_pointer == optarg`). `other` is any value the `switch` has no case for. -/
inductive Opt
  | h
  | v
  | l
  | o (optarg : String) (strtoul : Option Nat)
  | r (optarg : String) (strtof : Option F32)
  | g (optarg : String) (strtof : Option F32)
  | b (optarg : String) (strtof : Option F32)
  | G (optarg : String) (strtof : Option F32)
  | other

/-- How the option loop of `main` ends: it falls through with the settings, or
jumps to `end` with a return code. -/
inductive Parsed
  | run (output_index : Int) (components : Nat → F32) (gamma : F32)
  | stop (s : State) (retcode : Int)

/-- The `while ((opt = getopt(...)) != -1)` loop of `main`. -/
def parse_options (env : Env) :
    List Opt → State → Int → (Nat → F32) → F32 → Parsed
  | [], _, output_index, components, gamma => Parsed.run output_index components gamma
  | Opt.h :: _, s, _, _, _ => Parsed.stop (display_help s) 0
  | Opt.v :: _, s, _, _, _ => Parsed.stop (display_version s) 0
  | Opt.l :: _, s, _, _, _ => Parsed.stop (display_outputs env s).1 (display_outputs env s).2
  | Opt.o optarg none :: _, s, _, _, _ =>
    Parsed.stop (s.emit (Act.stderr ("Invalid output index '" ++ optarg ++ "' supplied.\n"))) 1
  | Opt.o _ (some u) :: rest, s, _, components, gamma =>
    parse_options env rest s (int_of_ulong u) components gamma
  | Opt.r optarg none :: _, s, _, _, _ =>
    Parsed.stop (s.emit (Act.stderr ("Invalid red component '" ++ optarg ++ "' supplied.\n"))) 1
  | Opt.r _ (some x) :: rest, s, output_index, components, gamma =>
    parse_options env rest s output_index (Function.update components 0 x) gamma
  | Opt.g optarg none :: _, s, _, _, _ =>
    Parsed.stop (s.emit (Act.stderr ("Invalid green component '" ++ optarg ++ "' supplied.\n"))) 1
  | Opt.g _ (some x) :: rest, s, output_index, components, gamma =>
    parse_options env rest s output_index (Function.update components 1 x) gamma
  | Opt.b optarg none :: _, s, _, _, _ =>
    Parsed.stop (s.emit (Act.stderr ("Invalid blue component '" ++ optarg ++ "' supplied.\n"))) 1
  | Opt.b _ (some x) :: rest, s, output_index, components, gamma =>
    parse_options env rest s output_index (Function.update components 2 x) gamma
  | Opt.G optarg none :: _, s, _, _, _ =>
    Parsed.stop (s.emit (Act.stderr ("Invalid gamma value '" ++ optarg ++ "' supplied.\n"))) 1
  | Opt.G _ (some x) :: rest, s, output_index, components, _ =>
    parse_options env rest s output_index components x
  | Opt.other :: rest, s, output_index, components, gamma =>
    parse_options env rest s output_index components gamma

/-- The variable `no_effect` of `main`. -/
def no_effect (components : Nat → F32) (gamma : F32) : Bool :=
  (List.range channel_count).foldl
    (fun acc i => acc && F32.eq (components i) F32.one)
    (F32.eq gamma F32.one)

/-! ## `main` -/

/-- How a run ends: `main` returns; or its behaviour is undefined from some
action on (`fault`: `outputs` is read outside its bounds, or a store through
`shm_data` hits memory that is not mapped); or the final loop never ends. -/
inductive Outcome
  | exit (retcode : Int)
  | fault
  | forever
  deriving DecidableEq

/-- A finished run: its outcome and the last state (whose `log` is the trace). -/
structure Result where
  outcome : Outcome
  final : State

/-- The code after the label `end` of `main`. -/
def finish (s : State) (retcode : Int) : Result :=
  let s := if s.shm_data > 0 then s.emit (Act.munmap (gamma_table_size s.gamma_size)) else s
  let s := if s.shm_fd ≥ 0 then s.emit (Act.close s.shm_fd) else s
  let s := (List.range s.output_count).foldl
    (fun st i => st.emit (Act.wl_output_destroy (st.outputs.getD i 0))) s
  let s := if s.gamma_control ≠ 0 then s.emit Act.gamma_control_destroy else s
  let s := if s.gamma_control_manager ≠ 0 then s.emit Act.gamma_control_manager_destroy else s
  let s := if s.registry ≠ 0 then s.emit Act.wl_registry_destroy else s
  let s := if s.display ≠ 0 then s.emit Act.wl_display_disconnect else s
  { outcome := Outcome.exit retcode, final := s }

/-- The loop `while (!quit) quit |= wl_display_roundtrip(display) == -1;` run for
`n` iterations, the round trips numbered from `k`. -/
def session_loop (env : Env) : Nat → Nat → State → State
  | 0, _, s => s
  | n + 1, k, s => session_loop env n (k + 1) (wl_display_roundtrip env k s)

/-- The element `outputs[output_index]`, `none` when the index is outside the
array: that read is undefined behaviour, and `main` treats it as a fault. -/
def output_at (s : State) (output_index : Int) : Option Nat :=
  if 0 ≤ output_index then s.outputs.get? output_index.toNat else none

/-- The stage of `main` at line 426: `shm_open` has returned. -/
def stage_shm_open (env : Env) (s : State) : State :=
  { s.emit Act.shm_open with shm_fd := env.shm_open }

/-- The stage of `main` at lines 435 to 453: the name is unlinked, the object
resized to `gamma_table_size()` and mapped. -/
def stage_mmap (env : Env) (s : State) : State :=
  { (((stage_shm_open env s).emit Act.shm_unlink).emit
        (Act.ftruncate (gamma_table_size s.gamma_size))).emit
      (Act.mmap (gamma_table_size s.gamma_size)) with
    shm_data := env.mmap }

/-- The stage of `main` at lines 462 to 464: the table is written into the
zero-filled mapping, then `set_gamma` is sent with the descriptor. -/
def stage_set_gamma (powf : F32 → F32 → F32) (env : Env) (components : Nat → F32)
    (gamma : F32) (s : State) : State :=
  { (stage_mmap env s).emit Act.fill_gamma_table with
    shm := fill_gamma_table powf s.gamma_size (fun _ => some 0) components gamma }.emit
    (Act.set_gamma (stage_mmap env s).shm_fd)

/-- The part of `main` from `shm_open` on. A store of `fill_gamma_table` faults
when `shm_data` is `MAP_FAILED` or when the table is larger than the mapping
(`gamma_table_size()` has wrapped). -/
def main_shm (powf : F32 → F32 → F32) (env : Env) (components : Nat → F32) (gamma : F32)
    (s : State) : Result :=
  if (stage_shm_open env s).shm_fd < 0 then
    finish ((stage_shm_open env s).emit
      (Act.stderr ("Failed to create shared memory: " ++ toString env.errno ++ ".\n"))) 1
  else if env.shm_unlink < 0 then
    finish (((stage_shm_open env s).emit Act.shm_unlink).emit
      (Act.stderr ("Failed to unlink shared memory: " ++ toString env.errno ++ ".\n"))) 1
  else if env.ftruncate < 0 then
    finish ((((stage_shm_open env s).emit Act.shm_unlink).emit
        (Act.ftruncate (gamma_table_size s.gamma_size))).emit
      (Act.stderr ("Failed to resize shared memory: " ++ toString env.errno ++ ".\n"))) 1
  else if (stage_mmap env s).shm_data < 0 then
    finish ((stage_mmap env s).emit
      (Act.stderr ("Failed to map shared memory: " ++ toString env.errno ++ ".\n"))) 1
  else if (stage_mmap env s).shm_data = MAP_FAILED ∨
      gamma_table_size s.gamma_size ≠ channel_count * 2 * s.gamma_size then
    { outcome := Outcome.fault, final := (stage_mmap env s).emit Act.fill_gamma_table }
  else
    match env.loop with
    | none => { outcome := Outcome.forever, final := stage_set_gamma powf env components gamma s }
    | some n => finish (session_loop env n 3 (stage_set_gamma powf env components gamma s)) 0

/-- The stage of `main` at line 371: the connection is requested. -/
def stage_connect (env : Env) : State :=
  { State.init.emit Act.wl_display_connect with display := env.connect }

/-- The stage of `main` at lines 380 to 382: the registry is obtained and the
first round trip dispatches the advertisements. -/
def stage_discover (env : Env) : State :=
  wl_display_roundtrip env 0
    { (stage_connect env).emit Act.wl_display_get_registry with registry := env.get_registry }

/-- The stage of `main` at lines 405 to 407: a second round trip, then the gamma
control of `outputs[output_index]` is requested. -/
def stage_bind (env : Env) (output_index : Int) : State :=
  { (wl_display_roundtrip env 1 (stage_discover env)).emit
      (Act.get_gamma_control (output_at (wl_display_roundtrip env 1 (stage_discover env))
        output_index)) with
    gamma_control := env.get_gamma_control }

/-- The stage of `main` at lines 416 and 417: the listener is added and a third
round trip dispatches the events of the gamma control. -/
def stage_size (env : Env) (output_index : Int) : State :=
  wl_display_roundtrip env 2 (stage_bind env output_index)

/-- The function `main`: `opts` is the sequence of options `getopt` yields. Past
the index check, the read of `outputs[output_index]` at line 407 is outside the
array exactly when `output_at` is `none` (a negative index); the run then ends as
a fault at the request made with that element. -/
def main (powf : F32 → F32 → F32) (env : Env) (opts : List Opt) : Result :=
  match parse_options env opts State.init 0 (fun _ => F32.one) F32.one with
  | Parsed.stop s retcode => finish s retcode
  | Parsed.run output_index components gamma =>
    if no_effect components gamma then finish (display_help State.init) 0
    else if (stage_connect env).display = 0 then
      finish ((stage_connect env).emit (Act.stderr "Failed to connect to Wayland server.\n")) 1
    else if (stage_discover env).gamma_control_manager = 0 then
      finish ((stage_discover env).emit (Act.stderr msg_no_manager)) 1
    else if (stage_discover env).output_count = 0 then
      finish ((stage_discover env).emit (Act.stderr msg_no_outputs)) 1
    else if ((stage_discover env).output_count : Int) ≤ output_index then
      finish ((stage_discover env).emit (Act.stderr (msg_no_index output_index))) 1
    else if output_at (wl_display_roundtrip env 1 (stage_discover env)) output_index = none then
      { outcome := Outcome.fault, final := stage_bind env output_index }
    else if (stage_bind env output_index).gamma_control = 0 then
      finish ((stage_bind env output_index).emit (Act.stderr msg_no_control)) 1
    else if (stage_size env output_index).gamma_size = 0 then
      finish ((stage_size env output_index).emit (Act.stderr msg_no_size)) 1
    else main_shm powf env components gamma (stage_size env output_index)

/-! ## Vocabulary of the theorems -/

/-- The actions that acquire nothing: output, round trips and the releases of the
teardown. -/
def Act.passive : Act → Prop
  | Act.stdout _ => True
  | Act.stderr _ => True
  | Act.wl_display_roundtrip => True
  | Act.munmap _ => True
  | Act.close _ => True
  | Act.wl_output_destroy _ => True
  | Act.gamma_control_destroy => True
  | Act.gamma_control_manager_destroy => True
  | Act.wl_registry_destroy => True
  | Act.wl_display_disconnect => True
  | _ => False

/-- The releases of the teardown after the label `end`. -/
def Act.release : Act → Prop
  | Act.munmap _ => True
  | Act.close _ => True
  | Act.wl_output_destroy _ => True
  | Act.gamma_control_destroy => True
  | Act.gamma_control_manager_destroy => True
  | Act.wl_registry_destroy => True
  | Act.wl_display_disconnect => True
  | _ => False

/-- What a round trip logs: itself, and the message of `on_gamma_control_failed`. -/
def Act.dispatched (a : Act) : Prop :=
  a = Act.wl_display_roundtrip ∨ a = Act.stderr msg_failed

/-- The log of `r` is the log of `s` followed by actions that satisfy `P`. -/
def GrowsBy (P : Act → Prop) (s r : State) : Prop :=
  ∃ tail, r.log = s.log ++ tail ∧ ∀ a ∈ tail, P a

/-- The log of `r` is the log of `s` followed by passive actions only. -/
def Grows (s r : State) : Prop :=
  ∃ tail, r.log = s.log ++ tail ∧ ∀ a ∈ tail, Act.passive a

/-- Both arrays of the output registry have `output_count` entries. -/
def State.wf (s : State) : Prop :=
  s.outputs.length = s.output_count ∧ s.output_names.length = s.output_count

/-- A compositor that advertises the gamma-control manager and two outputs,
names them in the second round trip and reports a ramp size of 4 in the third; every
system call succeeds and the final loop is interrupted at once. -/
def env_two_outputs : Env :=
  { connect := 1000
    get_registry := 1001
    events := fun k =>
      if k = 0 then
        [Event.global 1 "wl_compositor" 4 2000,
         Event.global 2 zwlr_gamma_control_manager_v1_name 1 2001,
         Event.global 3 wl_output_name 4 2002,
         Event.global 4 wl_output_name 4 2003]
      else if k = 1 then [Event.output_name 2002 "DP-1", Event.output_name 2003 "HDMI-A-1"]
      else if k = 2 then [Event.gamma_size 4]
      else []
    get_gamma_control := 3000
    shm_open := 3
    shm_unlink := 0
    ftruncate := 0
    mmap := 4096
    errno := 0
    loop := some 0 }

/-- One option `-r 0.5`. -/
def opts_red_half : List Opt := [Opt.r "0.5" (some (F32.fin false (1 / 2)))]

/-- An option other than `-h`, `-v` and `-l` whose argument, when it takes one,
converts. -/
def Opt.converts : Opt → Prop
  | Opt.h => False
  | Opt.v => False
  | Opt.l => False
  | Opt.o _ p => p ≠ none
  | Opt.r _ p => p ≠ none
  | Opt.g _ p => p ≠ none
  | Opt.b _ p => p ≠ none
  | Opt.G _ p => p ≠ none
  | Opt.other => True

/-- The red multiplier an option sets. -/
def Opt.red : Opt → Option F32
  | Opt.r _ p => p
  | _ => none

/-- The green multiplier an option sets. -/
def Opt.green : Opt → Option F32
  | Opt.g _ p => p
  | _ => none

/-- The blue multiplier an option sets. -/
def Opt.blue : Opt → Option F32
  | Opt.b _ p => p
  | _ => none

/-- The gamma an option sets. -/
def Opt.gamma : Opt → Option F32
  | Opt.G _ p => p
  | _ => none

/-- The value set by the last option that `pick` selects, `1.0` without one. -/
def last_value (pick : Opt → Option F32) (opts : List Opt) : F32 :=
  ((opts.filterMap pick).getLast?).getD F32.one

/-- A compositor that advertises the gamma-control manager and no output. -/
def env_no_outputs : Env :=
  { env_two_outputs with
    events := fun k =>
      if k = 0 then [Event.global 2 zwlr_gamma_control_manager_v1_name 1 2001] else [] }

/-- The environment `env_two_outputs`, except that the compositor sends `failed`
after the ramp size in the third round trip. -/
def env_failed_after_size : Env :=
  { env_two_outputs with
    events := fun k =>
      if k = 0 then
        [Event.global 2 zwlr_gamma_control_manager_v1_name 1 2001,
         Event.global 3 wl_output_name 4 2002,
         Event.global 4 wl_output_name 4 2003]
      else if k = 2 then [Event.gamma_size 4, Event.failed]
      else [] }

/-- The environment `env_two_outputs`, except that `get_gamma_control` returns
`NULL`. -/
def env_no_control : Env := { env_two_outputs with get_gamma_control := 0 }

/-- The environment `env_two_outputs`, except that `mmap` fails. -/
def env_mmap_fails : Env := { env_two_outputs with mmap := MAP_FAILED, errno := 12 }


/-! ## Rounding to the binary32 grid -/

theorem two_zpow_pos (e : ℤ) : (0 : ℚ) < 2 ^ e := zpow_pos (by norm_num) e

theorem log2Fuel_spec (fuel : Nat) :
    ∀ n, 1 ≤ n → n ≤ fuel → 2 ^ log2Fuel fuel n ≤ n ∧ n < 2 ^ (log2Fuel fuel n + 1) := by
  induction fuel with
  | zero => intro n h1 h2; omega
  | succ f ih =>
    intro n h1 h2
    unfold log2Fuel
    split_ifs with h
    · constructor <;> simp <;> omega
    · obtain ⟨ha, hb⟩ := ih (n / 2) (by omega) (by omega)
      rw [pow_succ, pow_succ]
      rw [pow_succ] at hb
      constructor <;> omega

theorem rat_eq_toNat_div {q : ℚ} (hq : 0 < q) : q = (q.num.toNat : ℚ) / (q.den : ℚ) := by
  have h0 : ((q.num.toNat : ℕ) : ℤ) = q.num := Int.toNat_of_nonneg (Rat.num_pos.2 hq).le
  have h1 : ((q.num.toNat : ℕ) : ℚ) = (q.num : ℚ) :=
    calc ((q.num.toNat : ℕ) : ℚ) = (((q.num.toNat : ℕ) : ℤ) : ℚ) := (Int.cast_natCast _).symm
      _ = (q.num : ℚ) := by rw [h0]
  rw [h1]
  exact (Rat.num_div_den q).symm

theorem ilog2_le {q : ℚ} (hq : 0 < q) : (2 : ℚ) ^ ilog2 q ≤ q := by
  unfold ilog2
  split_ifs with h
  · exact h
  · have hnum : 0 < q.num := Rat.num_pos.2 hq
    have hden : 0 < q.den := q.den_pos
    obtain ⟨ha, -⟩ := log2Fuel_spec q.num.toNat q.num.toNat (by omega) le_rfl
    obtain ⟨-, hb⟩ := log2Fuel_spec q.den q.den (by omega) le_rfl
    set la := log2Fuel q.num.toNat q.num.toNat
    set lb := log2Fuel q.den q.den
    have hq' : q = (q.num.toNat : ℚ) / (q.den : ℚ) := rat_eq_toNat_div hq
    have ha' : (2 : ℚ) ^ la ≤ (q.num.toNat : ℚ) := by exact_mod_cast ha
    have hb' : (q.den : ℚ) ≤ (2 : ℚ) ^ (lb + 1) := by exact_mod_cast hb.le
    have hdpos : (0 : ℚ) < q.den := by exact_mod_cast hden
    have e1 : (2 : ℚ) ^ ((la : ℤ) - (lb : ℤ) - 1) = 2 ^ la / 2 ^ (lb + 1) := by
      rw [show ((la : ℤ) - (lb : ℤ) - 1) = (la : ℤ) - ((lb + 1 : ℕ) : ℤ) by push_cast; ring]
      rw [zpow_sub₀ (by norm_num : (2 : ℚ) ≠ 0), zpow_natCast, zpow_natCast]
    rw [e1]
    conv_rhs => rw [hq']
    rw [div_le_div_iff₀ (by positivity) hdpos]
    calc (2 : ℚ) ^ la * q.den ≤ (q.num.toNat : ℚ) * q.den :=
          mul_le_mul_of_nonneg_right ha' hdpos.le
      _ ≤ (q.num.toNat : ℚ) * 2 ^ (lb + 1) :=
          mul_le_mul_of_nonneg_left hb' (by positivity)

theorem lt_ilog2_succ {q : ℚ} (hq : 0 < q) : q < (2 : ℚ) ^ (ilog2 q + 1) := by
  unfold ilog2
  split_ifs with h
  · have hnum : 0 < q.num := Rat.num_pos.2 hq
    have hden : 0 < q.den := q.den_pos
    obtain ⟨-, ha⟩ := log2Fuel_spec q.num.toNat q.num.toNat (by omega) le_rfl
    obtain ⟨hb, -⟩ := log2Fuel_spec q.den q.den (by omega) le_rfl
    set la := log2Fuel q.num.toNat q.num.toNat
    set lb := log2Fuel q.den q.den
    have hq' : q = (q.num.toNat : ℚ) / (q.den : ℚ) := rat_eq_toNat_div hq
    have ha' : (q.num.toNat : ℚ) < (2 : ℚ) ^ (la + 1) := by exact_mod_cast ha
    have hb' : (2 : ℚ) ^ lb ≤ (q.den : ℚ) := by exact_mod_cast hb
    have hdpos : (0 : ℚ) < q.den := by exact_mod_cast hden
    have e1 : (2 : ℚ) ^ ((la : ℤ) - (lb : ℤ) + 1) = 2 ^ (la + 1) / 2 ^ lb := by
      rw [show ((la : ℤ) - (lb : ℤ) + 1) = ((la + 1 : ℕ) : ℤ) - (lb : ℤ) by push_cast; ring]
      rw [zpow_sub₀ (by norm_num : (2 : ℚ) ≠ 0), zpow_natCast, zpow_natCast]
    rw [e1]
    conv_lhs => rw [hq']
    rw [div_lt_div_iff₀ hdpos (by positivity)]
    calc (q.num.toNat : ℚ) * 2 ^ lb < 2 ^ (la + 1) * 2 ^ lb :=
          mul_lt_mul_of_pos_right ha' (by positivity)
      _ ≤ 2 ^ (la + 1) * q.den := mul_le_mul_of_nonneg_left hb' (by positivity)
  · rw [sub_add_cancel]
    exact not_le.1 h

theorem ilog2_lt_of_lt_zpow {q : ℚ} (hq : 0 < q) {x : ℤ} (h : q < 2 ^ x) : ilog2 q < x :=
  (zpow_lt_zpow_iff_right₀ (by norm_num : (1 : ℚ) < 2)).1 (lt_of_le_of_lt (ilog2_le hq) h)

theorem le_ilog2_of_zpow_le {q : ℚ} (hq : 0 < q) {x : ℤ} (h : 2 ^ x ≤ q) : x ≤ ilog2 q := by
  have := (zpow_lt_zpow_iff_right₀ (by norm_num : (1 : ℚ) < 2)).1
    (lt_of_le_of_lt h (lt_ilog2_succ hq))
  omega

theorem ilog2_mono {a b : ℚ} (ha : 0 < a) (hab : a ≤ b) : ilog2 a ≤ ilog2 b :=
  le_ilog2_of_zpow_le (lt_of_lt_of_le ha hab) (le_trans (ilog2_le ha) hab)

theorem ilog2_zpow (z : ℤ) : ilog2 ((2 : ℚ) ^ z) = z := by
  have hp := two_zpow_pos z
  have h1 := le_ilog2_of_zpow_le hp (le_refl ((2 : ℚ) ^ z))
  have h2 := ilog2_lt_of_lt_zpow hp
    (show (2 : ℚ) ^ z < 2 ^ (z + 1) from
      (zpow_lt_zpow_iff_right₀ (by norm_num : (1 : ℚ) < 2)).2 (by omega))
  omega

theorem rne_intCast (n : ℤ) : rne (n : ℚ) = n := by
  unfold rne
  simp

theorem floor_le_rne (x : ℚ) : ⌊x⌋ ≤ rne x := by
  unfold rne
  split_ifs <;> omega

theorem rne_le_floor_succ (x : ℚ) : rne x ≤ ⌊x⌋ + 1 := by
  unfold rne
  split_ifs <;> omega

theorem rne_mono {x y : ℚ} (h : x ≤ y) : rne x ≤ rne y := by
  have hf : ⌊x⌋ ≤ ⌊y⌋ := Int.floor_mono h
  rcases hf.lt_or_eq with hlt | heq
  · calc rne x ≤ ⌊x⌋ + 1 := rne_le_floor_succ x
      _ ≤ ⌊y⌋ := hlt
      _ ≤ rne y := floor_le_rne y
  · unfold rne
    rw [← heq]
    have hxy : x - ⌊x⌋ ≤ y - ⌊x⌋ := by linarith
    split_ifs <;> first | omega | (exfalso; linarith)

theorem rne_nonneg {x : ℚ} (h : 0 ≤ x) : 0 ≤ rne x := by
  have := rne_mono h
  rw [show (0 : ℚ) = ((0 : ℤ) : ℚ) by simp, rne_intCast] at this
  exact this

theorem ulpExp_ge (q : ℚ) : -149 ≤ ulpExp q := by
  unfold ulpExp
  have := le_max_right (ilog2 q) (-126)
  omega

theorem lt_zpow_ulpExp {q : ℚ} (hq : 0 < q) : q < 2 ^ (ulpExp q + 24) := by
  have h2 : ilog2 q + 1 ≤ ulpExp q + 24 := by
    unfold ulpExp
    have := le_max_left (ilog2 q) (-126)
    omega
  exact lt_of_lt_of_le (lt_ilog2_succ hq) (zpow_le_zpow_right₀ (by norm_num) h2)

theorem zpow_ulpExp_le {q : ℚ} (hq : 0 < q) (hn : -126 ≤ ilog2 q) :
    2 ^ (ulpExp q + 23) ≤ q := by
  have h2 : ulpExp q + 23 = ilog2 q := by
    unfold ulpExp
    rw [max_eq_left hn]; ring
  rw [h2]; exact ilog2_le hq

theorem rnd_zero : rnd 0 = 0 := by
  unfold rnd
  rw [zero_div, show (0 : ℚ) = ((0 : ℤ) : ℚ) by simp, rne_intCast]
  simp

theorem rnd_nonneg {q : ℚ} (h : 0 ≤ q) : 0 ≤ rnd q := by
  unfold rnd
  have h1 : 0 ≤ q / 2 ^ ulpExp q := div_nonneg h (two_zpow_pos _).le
  have h2 : (0 : ℚ) ≤ (rne (q / 2 ^ ulpExp q) : ℚ) := by exact_mod_cast rne_nonneg h1
  exact mul_nonneg h2 (two_zpow_pos _).le

theorem rnd_le_top {q : ℚ} (hq : 0 < q) : rnd q ≤ 2 ^ (ulpExp q + 24) := by
  unfold rnd
  have h1 : q / 2 ^ ulpExp q ≤ ((2 ^ 24 : ℤ) : ℚ) := by
    rw [div_le_iff₀ (two_zpow_pos _)]
    have := (lt_zpow_ulpExp hq).le
    rw [zpow_add₀ (by norm_num : (2 : ℚ) ≠ 0)] at this
    push_cast
    linarith [this]
  have h2 : rne (q / 2 ^ ulpExp q) ≤ 2 ^ 24 := by
    have := rne_mono h1
    rwa [rne_intCast] at this
  have h3 : (rne (q / 2 ^ ulpExp q) : ℚ) ≤ ((2 ^ 24 : ℤ) : ℚ) := by exact_mod_cast h2
  rw [zpow_add₀ (by norm_num : (2 : ℚ) ≠ 0), mul_comm ((2 : ℚ) ^ ulpExp q)]
  refine mul_le_mul_of_nonneg_right ?_ (two_zpow_pos _).le
  calc (rne (q / 2 ^ ulpExp q) : ℚ) ≤ ((2 ^ 24 : ℤ) : ℚ) := h3
    _ = (2 : ℚ) ^ (24 : ℤ) := by norm_num

theorem rnd_ge_bot {q : ℚ} (hq : 0 < q) (hn : -126 ≤ ilog2 q) :
    2 ^ (ulpExp q + 23) ≤ rnd q := by
  unfold rnd
  have h1 : ((2 ^ 23 : ℤ) : ℚ) ≤ q / 2 ^ ulpExp q := by
    rw [le_div_iff₀ (two_zpow_pos _)]
    have := zpow_ulpExp_le hq hn
    rw [zpow_add₀ (by norm_num : (2 : ℚ) ≠ 0)] at this
    push_cast
    linarith [this]
  have h2 : 2 ^ 23 ≤ rne (q / 2 ^ ulpExp q) := by
    have := rne_mono h1
    rwa [rne_intCast] at this
  have h3 : ((2 ^ 23 : ℤ) : ℚ) ≤ (rne (q / 2 ^ ulpExp q) : ℚ) := by exact_mod_cast h2
  rw [zpow_add₀ (by norm_num : (2 : ℚ) ≠ 0), mul_comm ((2 : ℚ) ^ ulpExp q)]
  refine mul_le_mul_of_nonneg_right ?_ (two_zpow_pos _).le
  calc (2 : ℚ) ^ (23 : ℤ) = ((2 ^ 23 : ℤ) : ℚ) := by norm_num
    _ ≤ (rne (q / 2 ^ ulpExp q) : ℚ) := h3

theorem ulpExp_mono {a b : ℚ} (ha : 0 < a) (hab : a ≤ b) : ulpExp a ≤ ulpExp b := by
  unfold ulpExp
  have := ilog2_mono ha hab
  have := max_le_max this (le_refl (-126 : ℤ))
  omega

theorem rnd_mono {a b : ℚ} (ha : 0 ≤ a) (hab : a ≤ b) : rnd a ≤ rnd b := by
  rcases ha.lt_or_eq with ha | ha
  · have hb : 0 < b := lt_of_lt_of_le ha hab
    rcases (ulpExp_mono ha hab).lt_or_eq with hlt | heq
    · have hn : -126 ≤ ilog2 b := by
        by_contra hc
        have h1 : ulpExp b = -149 := by
          unfold ulpExp
          rw [max_eq_right (by omega)]; norm_num
        have := ulpExp_ge a
        omega
      calc rnd a ≤ 2 ^ (ulpExp a + 24) := rnd_le_top ha
        _ ≤ 2 ^ (ulpExp b + 23) := zpow_le_zpow_right₀ (by norm_num) (by omega)
        _ ≤ rnd b := rnd_ge_bot hb hn
    · unfold rnd
      rw [heq]
      have h1 : a / 2 ^ ulpExp b ≤ b / 2 ^ ulpExp b :=
        div_le_div_of_nonneg_right hab (two_zpow_pos _).le
      have h2 : (rne (a / 2 ^ ulpExp b) : ℚ) ≤ rne (b / 2 ^ ulpExp b) := by
        exact_mod_cast rne_mono h1
      exact mul_le_mul_of_nonneg_right h2 (two_zpow_pos _).le
  · rw [← ha, rnd_zero]
    exact rnd_nonneg (ha ▸ hab)

theorem rnd_exact {q : ℚ} (m : ℤ) (h : q = m * 2 ^ ulpExp q) : rnd q = q := by
  unfold rnd
  have h1 : q / 2 ^ ulpExp q = (m : ℚ) := by
    rw [div_eq_iff (two_zpow_pos _).ne']
    exact h
  rw [h1, rne_intCast]
  exact h.symm

theorem rnd_idem {q : ℚ} (hq : 0 ≤ q) : rnd (rnd q) = rnd q := by
  rcases hq.lt_or_eq with hq | hq
  swap
  · rw [← hq, rnd_zero, rnd_zero]
  set k := rne (q / 2 ^ ulpExp q) with hk
  have hv : rnd q = k * 2 ^ ulpExp q := rfl
  have hk0 : 0 ≤ k := rne_nonneg (div_nonneg hq.le (two_zpow_pos _).le)
  rcases hk0.lt_or_eq with hkpos | hkz
  swap
  · rw [hv, ← hkz]; simp [rnd_zero]
  have hvpos : 0 < rnd q := by
    rw [hv]
    exact mul_pos (by exact_mod_cast hkpos) (two_zpow_pos _)
  have htop := rnd_le_top hq
  rcases htop.lt_or_eq with hlt | heq
  · have h1 : ilog2 (rnd q) < ulpExp q + 24 := ilog2_lt_of_lt_zpow hvpos hlt
    have h2 : ulpExp (rnd q) ≤ ulpExp q := by
      have h3 := ulpExp_ge q
      have h4 : ulpExp (rnd q) = max (ilog2 (rnd q)) (-126) - 23 := rfl
      rcases max_cases (ilog2 (rnd q)) (-126) with ⟨h5, _⟩ | ⟨h5, _⟩ <;> omega
    obtain ⟨d, hd⟩ : ∃ d : ℕ, ulpExp q = ulpExp (rnd q) + d :=
      ⟨(ulpExp q - ulpExp (rnd q)).toNat, by omega⟩
    apply rnd_exact (k * 2 ^ d)
    conv_lhs => rw [hv]
    rw [hd, zpow_add₀ (by norm_num : (2 : ℚ) ≠ 0)]
    push_cast
    rw [zpow_natCast]
    ring
  · have h1 : ilog2 (rnd q) = ulpExp q + 24 := by
      rw [heq]
      exact ilog2_zpow _
    have h2 : ulpExp (rnd q) = ulpExp q + 1 := by
      have h3 := ulpExp_ge q
      have h4 : ulpExp (rnd q) = max (ilog2 (rnd q)) (-126) - 23 := rfl
      rw [h4, h1, max_eq_left (by omega)]
      ring
    apply rnd_exact (2 ^ 23)
    rw [h2]
    conv_lhs => rw [heq]
    rw [show ulpExp q + 24 = (ulpExp q + 1) + 23 by ring,
      zpow_add₀ (by norm_num : (2 : ℚ) ≠ 0) (ulpExp q + 1) 23]
    push_cast
    rw [mul_comm]
    norm_num

/-! ## The stores of `fill_gamma_ramp` and `fill_gamma_table` -/

theorem foldl_update_range (f : Nat → Option Nat) (off : Nat) (shm : Shm) (k p : Nat) :
    (List.range k).foldl (fun m i => Function.update m (off + i) (f i)) shm p =
      if off ≤ p ∧ p < off + k then f (p - off) else shm p := by
  induction k with
  | zero =>
    rw [if_neg (by omega)]
    rfl
  | succ k ih =>
    rw [List.range_succ, List.foldl_append]
    simp only [List.foldl_cons, List.foldl_nil]
    by_cases h : p = off + k
    · subst h
      simp [Function.update_same]
    · rw [Function.update_noteq h, ih]
      by_cases h1 : off ≤ p ∧ p < off + k
      · rw [if_pos h1, if_pos ⟨h1.1, by omega⟩]
      · rw [if_neg h1, if_neg (by omega)]

theorem fill_gamma_ramp_apply (powf : F32 → F32 → F32) (n : Nat) (shm : Shm) (ramp : Nat)
    (component gamma : F32) (p : Nat) :
    fill_gamma_ramp powf n shm ramp component gamma p =
      if ramp ≤ p ∧ p < ramp + n then
        F32.to_uint16 (ramp_value powf n component gamma (p - ramp))
      else shm p :=
  foldl_update_range (fun i => F32.to_uint16 (ramp_value powf n component gamma i)) ramp shm n p

theorem fill_gamma_ramp_inside (powf : F32 → F32 → F32) (n : Nat) (shm : Shm) (ramp : Nat)
    (component gamma : F32) (i : Nat) (hi : i < n) :
    fill_gamma_ramp powf n shm ramp component gamma (ramp + i) =
      F32.to_uint16 (ramp_value powf n component gamma i) := by
  rw [fill_gamma_ramp_apply, if_pos ⟨by omega, by omega⟩]
  congr 2
  omega

theorem fill_gamma_table_unfold (powf : F32 → F32 → F32) (n : Nat) (shm : Shm)
    (components : Nat → F32) (gamma : F32) :
    fill_gamma_table powf n shm components gamma =
      fill_gamma_ramp powf n
        (fill_gamma_ramp powf n
          (fill_gamma_ramp powf n shm ((n * 0) % UINT32_MOD) (components 0) gamma)
          ((n * 1) % UINT32_MOD) (components 1) gamma)
        ((n * 2) % UINT32_MOD) (components 2) gamma := by
  unfold fill_gamma_table channel_count
  simp [List.range_succ]

theorem fill_gamma_table_inside (powf : F32 → F32 → F32) (n : Nat) (hn : n < 2 ^ 31)
    (shm : Shm) (components : Nat → F32) (gamma : F32) (c i : Nat) (hc : c < 3) (hi : i < n) :
    fill_gamma_table powf n shm components gamma (c * n + i) =
      F32.to_uint16 (ramp_value powf n (components c) gamma i) := by
  have e0 : (n * 0) % UINT32_MOD = 0 := by simp
  have e1 : (n * 1) % UINT32_MOD = n := by
    unfold UINT32_MOD; rw [Nat.mul_one]; exact Nat.mod_eq_of_lt (by omega)
  have e2 : (n * 2) % UINT32_MOD = 2 * n := by
    unfold UINT32_MOD; rw [Nat.mod_eq_of_lt (by omega)]; omega
  rw [fill_gamma_table_unfold, e0, e1, e2]
  interval_cases c
  · rw [fill_gamma_ramp_apply, if_neg (by omega), fill_gamma_ramp_apply, if_neg (by omega),
      fill_gamma_ramp_apply, if_pos ⟨by omega, by omega⟩]
    congr 2
    omega
  · rw [fill_gamma_ramp_apply, if_neg (by omega), fill_gamma_ramp_apply,
      if_pos ⟨by omega, by omega⟩]
    congr 2
    omega
  · rw [fill_gamma_ramp_apply, if_pos ⟨by omega, by omega⟩]
    congr 2
    omega

theorem fill_gamma_table_outside (powf : F32 → F32 → F32) (n : Nat) (hn : n < 2 ^ 31)
    (shm : Shm) (components : Nat → F32) (gamma : F32) (p : Nat) (hp : 3 * n ≤ p) :
    fill_gamma_table powf n shm components gamma p = shm p := by
  have e0 : (n * 0) % UINT32_MOD = 0 := by simp
  have e1 : (n * 1) % UINT32_MOD = n := by
    unfold UINT32_MOD; rw [Nat.mul_one]; exact Nat.mod_eq_of_lt (by omega)
  have e2 : (n * 2) % UINT32_MOD = 2 * n := by
    unfold UINT32_MOD; rw [Nat.mod_eq_of_lt (by omega)]; omega
  rw [fill_gamma_table_unfold, e0, e1, e2]
  rw [fill_gamma_ramp_apply, if_neg (by omega), fill_gamma_ramp_apply, if_neg (by omega),
    fill_gamma_ramp_apply, if_neg (by omega)]

/-! ## Single-precision facts used by the ramp -/

theorem div_fin_fin (s t : Bool) (a b : ℚ) :
    F32.div (F32.fin s a) (F32.fin t b) =
      if b = 0 then (if a = 0 then F32.nan else F32.inf (xor s t))
      else F32.ofMag (xor s t) (a / b) := rfl

theorem mul_fin_fin (s t : Bool) (a b : ℚ) :
    F32.mul (F32.fin s a) (F32.fin t b) = F32.ofMag (xor s t) (a * b) := rfl

theorem to_uint16_fin_false (m : ℚ) :
    F32.to_uint16 (F32.fin false m) = if m < 65536 then some ⌊m⌋₊ else none := rfl

theorem to_uint16_fin_true (m : ℚ) :
    F32.to_uint16 (F32.fin true m) = if m < 1 then some 0 else none := rfl

theorem rnd_one : rnd 1 = 1 := by decide!

theorem rnd_uint16_max : rnd 65535 = 65535 := by decide!

theorem rnd_two_pow_32 : rnd (2 ^ 32) = 2 ^ 32 := by decide!

theorem rnd_natCast_lt (n : Nat) (hn : n < 2 ^ 32) : rnd (n : ℚ) < 2 ^ 128 := by
  have h1 : (n : ℚ) ≤ 2 ^ 32 := by exact_mod_cast hn.le
  have h2 : rnd (n : ℚ) ≤ rnd (2 ^ 32) := rnd_mono (Nat.cast_nonneg n) h1
  rw [rnd_two_pow_32] at h2
  exact lt_of_le_of_lt h2 (by norm_num)

theorem ofNat_eq (n : Nat) (hn : n < 2 ^ 32) : F32.ofNat n = F32.fin false (rnd n) := by
  unfold F32.ofNat F32.ofMag
  rw [if_pos (rnd_natCast_lt n hn)]

theorem one_le_rnd_natCast (n : Nat) (hn : 1 ≤ n) : 1 ≤ rnd (n : ℚ) := by
  have h1 : (1 : ℚ) ≤ n := by exact_mod_cast hn
  have h2 := rnd_mono (by norm_num : (0 : ℚ) ≤ 1) h1
  rwa [rnd_one] at h2

theorem pred_uint32 (n : Nat) (h1 : 1 ≤ n) (h2 : n < UINT32_MOD) :
    (n + UINT32_MOD - 1) % UINT32_MOD = n - 1 := by
  unfold UINT32_MOD at h2 ⊢
  omega

theorem ofMag_of_le {q b : ℚ} (neg : Bool) (h : rnd q ≤ b) (hb : b < 2 ^ 128) :
    F32.ofMag neg q = F32.fin neg (rnd q) := by
  unfold F32.ofMag
  rw [if_pos (lt_of_le_of_lt h hb)]

theorem quotient_le_one (n i : Nat) (h1 : 1 < n) (hi : i < n) :
    rnd (rnd (i : ℚ) / rnd ((n - 1 : ℕ) : ℚ)) ≤ 1 := by
  have hd : 1 ≤ rnd ((n - 1 : ℕ) : ℚ) := one_le_rnd_natCast (n - 1) (by omega)
  have hi' : rnd (i : ℚ) ≤ rnd ((n - 1 : ℕ) : ℚ) :=
    rnd_mono (Nat.cast_nonneg i) (by exact_mod_cast (show i ≤ n - 1 by omega))
  have hq : rnd (i : ℚ) / rnd ((n - 1 : ℕ) : ℚ) ≤ 1 := by
    rw [div_le_one (by linarith)]
    exact hi'
  have h0 : 0 ≤ rnd (i : ℚ) / rnd ((n - 1 : ℕ) : ℚ) :=
    div_nonneg (rnd_nonneg (Nat.cast_nonneg i)) (by linarith)
  have := rnd_mono h0 hq
  rwa [rnd_one] at this

/-- The normalized position `i / (float)(gamma_size - 1)` for a length above 1. -/
theorem normalized_eq (n i : Nat) (h1 : 1 < n) (h2 : n < UINT32_MOD) (hi : i < n) :
    F32.div (F32.ofNat i) (F32.ofNat ((n + UINT32_MOD - 1) % UINT32_MOD)) =
      F32.fin false (rnd (rnd (i : ℚ) / rnd ((n - 1 : ℕ) : ℚ))) := by
  have h2' : n < 2 ^ 32 := h2
  rw [pred_uint32 n (by omega) h2, ofNat_eq i (by omega), ofNat_eq (n - 1) (by omega)]
  have hd : 1 ≤ rnd ((n - 1 : ℕ) : ℚ) := one_le_rnd_natCast (n - 1) (by omega)
  rw [div_fin_fin, if_neg (by linarith)]
  simpa using ofMag_of_le false (quotient_le_one n i h1 hi) (by norm_num)

theorem div_one_one : F32.div F32.one F32.one = F32.one := by decide!

theorem mul_one_of_rounded (q : ℚ) (h0 : 0 ≤ q) (h : rnd q ≤ 1) :
    F32.mul (F32.fin false (rnd q)) F32.one = F32.fin false (rnd q) := by
  unfold F32.one
  rw [mul_fin_fin, mul_one]
  unfold F32.ofMag
  rw [rnd_idem h0, if_pos (lt_of_le_of_lt h (by norm_num))]
  rfl

theorem scaled_le (r : ℚ) (h0 : 0 ≤ r) (h1 : r ≤ 1) : rnd (65535 * r) ≤ 65535 := by
  have := rnd_mono (mul_nonneg (by norm_num) h0) (show 65535 * r ≤ 65535 by linarith)
  rwa [rnd_uint16_max] at this

theorem uint16_max_mul (r : ℚ) (h0 : 0 ≤ r) (h1 : r ≤ 1) :
    F32.mul (F32.ofNat UINT16_MAX) (F32.fin false r) = F32.fin false (rnd (65535 * r)) := by
  have e : F32.ofNat UINT16_MAX = F32.fin false 65535 := by decide!
  rw [e, mul_fin_fin]
  simpa using ofMag_of_le false (scaled_le r h0 h1) (by norm_num)

/-- The value of one entry when every multiplier and the gamma are `1.0`. -/
theorem ramp_value_identity (powf : F32 → F32 → F32) (hp : PowfSpec powf) (n i : Nat)
    (h1 : 1 < n) (h2 : n < UINT32_MOD) (hi : i < n) :
    ramp_value powf n F32.one F32.one i =
      F32.fin false (rnd (65535 * rnd (rnd (i : ℚ) / rnd ((n - 1 : ℕ) : ℚ)))) := by
  have hd : 1 ≤ rnd ((n - 1 : ℕ) : ℚ) := one_le_rnd_natCast (n - 1) (by omega)
  have h0 : 0 ≤ rnd (i : ℚ) / rnd ((n - 1 : ℕ) : ℚ) :=
    div_nonneg (rnd_nonneg (Nat.cast_nonneg i)) (by linarith)
  unfold ramp_value
  rw [normalized_eq n i h1 h2 hi, div_one_one,
    mul_one_of_rounded _ h0 (quotient_le_one n i h1 hi), hp.exp_one,
    uint16_max_mul _ (rnd_nonneg h0) (quotient_le_one n i h1 hi)]

theorem to_uint16_of_le (v : ℚ) (h : v ≤ 65535) :
    F32.to_uint16 (F32.fin false v) = some ⌊v⌋₊ := by
  rw [to_uint16_fin_false, if_pos (by linarith)]

theorem identity_value_mono (n i j : Nat) (hij : i ≤ j) :
    rnd (65535 * rnd (rnd (i : ℚ) / rnd ((n - 1 : ℕ) : ℚ))) ≤
      rnd (65535 * rnd (rnd (j : ℚ) / rnd ((n - 1 : ℕ) : ℚ))) := by
  have hd : 0 ≤ rnd ((n - 1 : ℕ) : ℚ) := rnd_nonneg (Nat.cast_nonneg _)
  have h1 : rnd (i : ℚ) ≤ rnd (j : ℚ) :=
    rnd_mono (Nat.cast_nonneg i) (by exact_mod_cast hij)
  have h2 : rnd (i : ℚ) / rnd ((n - 1 : ℕ) : ℚ) ≤ rnd (j : ℚ) / rnd ((n - 1 : ℕ) : ℚ) :=
    div_le_div_of_nonneg_right h1 hd
  have h3 := rnd_mono (div_nonneg (rnd_nonneg (Nat.cast_nonneg i)) hd) h2
  exact rnd_mono (mul_nonneg (by norm_num) (rnd_nonneg (div_nonneg (rnd_nonneg (Nat.cast_nonneg i)) hd)))
    (by linarith)

/-! ## `powf_fixed` meets `PowfSpec` -/

theorem powf_fixed_spec : PowfSpec powf_fixed where
  exp_one := by
    intro x
    simp [powf_fixed, F32.one]
  exp_zero := by
    intro x s
    simp [powf_fixed]
  zero_pos := by
    intro s y hy
    match y, hy with
    | F32.fin false m, hm =>
      have hm' : 0 < m := hm
      by_cases h1 : m = 1
      · exact ⟨s, by simp [powf_fixed, h1]⟩
      · exact ⟨false, by simp [powf_fixed, h1, hm'.ne']⟩
    | F32.inf false, _ => exact ⟨false, by simp [powf_fixed]⟩
  zero_neg := by
    intro s y hy
    match y, hy with
    | F32.fin true m, hm =>
      have hm' : 0 < m := hm
      exact ⟨false, by simp [powf_fixed, hm'.ne']⟩
    | F32.inf true, _ => exact ⟨false, by simp [powf_fixed]⟩
  nan_base := by
    intro y hy
    match y, hy with
    | F32.nan, _ => rfl
    | F32.inf _, _ => rfl
    | F32.fin s m, h =>
      have hm : m ≠ 0 := fun h0 => h s (by rw [h0])
      by_cases h1 : s = false ∧ m = 1
      · simp [powf_fixed, hm, h1]
      · simp only [powf_fixed, hm, h1, if_false]

/-! ## The identity ramp -/

/-- C2, as amended: for every ramp length above 1, with all three multipliers and
the gamma equal to `1.0`, every entry `i` of a channel is the single-precision
product `65535 * (i / (length - 1))` with its fraction dropped (it is not rounded
to nearest), it lies in `[0, 65535]`, the first entry is 0 and the last 65535, the
ramp is non-decreasing in `i`, and for a length below `2^31` `fill_gamma_table`
stores that entry at cell `c * length + i` for every channel `c`. -/
theorem identity_ramp_truncates (powf : F32 → F32 → F32) (hp : PowfSpec powf) (n : Nat)
    (h1 : 1 < n) (h2 : n < UINT32_MOD) (shm : Shm) (ramp : Nat) :
    (∀ i, i < n →
      fill_gamma_ramp powf n shm ramp F32.one F32.one (ramp + i) =
          some ⌊rnd (65535 * rnd (rnd (i : ℚ) / rnd ((n - 1 : ℕ) : ℚ)))⌋₊ ∧
        ⌊rnd (65535 * rnd (rnd (i : ℚ) / rnd ((n - 1 : ℕ) : ℚ)))⌋₊ ≤ 65535) ∧
    (∀ i j a b, i ≤ j → j < n →
      fill_gamma_ramp powf n shm ramp F32.one F32.one (ramp + i) = some a →
      fill_gamma_ramp powf n shm ramp F32.one F32.one (ramp + j) = some b → a ≤ b) ∧
    fill_gamma_ramp powf n shm ramp F32.one F32.one (ramp + 0) = some 0 ∧
    fill_gamma_ramp powf n shm ramp F32.one F32.one (ramp + (n - 1)) = some 65535 ∧
    (n < 2 ^ 31 → ∀ c i, c < channel_count → i < n →
      fill_gamma_table powf n shm (fun _ => F32.one) F32.one (c * n + i) =
        some ⌊rnd (65535 * rnd (rnd (i : ℚ) / rnd ((n - 1 : ℕ) : ℚ)))⌋₊) := by
  have hd : 1 ≤ rnd ((n - 1 : ℕ) : ℚ) := one_le_rnd_natCast (n - 1) (by omega)
  have hle : ∀ i, i < n → rnd (65535 * rnd (rnd (i : ℚ) / rnd ((n - 1 : ℕ) : ℚ))) ≤ 65535 := by
    intro i hi
    exact scaled_le _
      (rnd_nonneg (div_nonneg (rnd_nonneg (Nat.cast_nonneg i)) (by linarith)))
      (quotient_le_one n i h1 hi)
  have hcell : ∀ i, i < n →
      fill_gamma_ramp powf n shm ramp F32.one F32.one (ramp + i) =
        some ⌊rnd (65535 * rnd (rnd (i : ℚ) / rnd ((n - 1 : ℕ) : ℚ)))⌋₊ := by
    intro i hi
    rw [fill_gamma_ramp_inside powf n shm ramp _ _ i hi, ramp_value_identity powf hp n i h1 h2 hi,
      to_uint16_of_le _ (hle i hi)]
  refine ⟨?_, ?_, ?_, ?_, ?_⟩
  · intro i hi
    refine ⟨hcell i hi, ?_⟩
    have := Nat.floor_mono (hle i hi)
    simpa using this
  · intro i j a b hij hj ha hb
    rw [hcell i (by omega)] at ha
    rw [hcell j hj] at hb
    cases ha
    cases hb
    exact Nat.floor_mono (identity_value_mono n i j hij)
  · rw [hcell 0 (by omega)]
    simp [rnd_zero]
  · rw [hcell (n - 1) (by omega), div_self (by linarith), rnd_one, mul_one, rnd_uint16_max]
    simp
  · intro hn c i hc hi
    rw [fill_gamma_table_inside powf n hn shm _ _ c i hc hi,
      ramp_value_identity powf hp n i h1 h2 hi, to_uint16_of_le _ (hle i hi)]

/-- The identity ramp of length 3 from `identity_ramp_truncates`. -/
theorem identity_ramp_truncates_witness :
    fill_gamma_ramp powf_fixed 3 (fun _ => none) 0 F32.one F32.one (0 + 1) =
      some ⌊rnd (65535 * rnd (rnd ((1 : ℕ) : ℚ) / rnd ((3 - 1 : ℕ) : ℚ)))⌋₊ :=
  ((identity_ramp_truncates powf_fixed powf_fixed_spec 3 (by decide) (by decide)
    (fun _ => none) 0).1 1 (by decide)).1

/-- C2 as stated fails for length 3 at index 1: the program stores 32767, the
value rounded to nearest is 32768. -/
theorem identity_ramp_not_rounded :
    fill_gamma_table powf_fixed 3 (fun _ => none) (fun _ => F32.one) F32.one (0 * 3 + 1) =
        some 32767 ∧
      round ((1 : ℚ) / ((3 : ℚ) - 1) * 65535) = 32768 := by
  constructor <;> decide!

/-! ## Range of the entries -/

theorem to_uint16_le (x : F32) (k : Nat) (h : F32.to_uint16 x = some k) : k ≤ 65535 := by
  match x, h with
  | F32.fin false m, h =>
    rw [to_uint16_fin_false] at h
    split_ifs at h with hm
    cases h
    have : ⌊m⌋₊ < 65536 := (Nat.floor_lt' (by norm_num)).2 (by exact_mod_cast hm)
    omega
  | F32.fin true m, h =>
    rw [to_uint16_fin_true] at h
    split_ifs at h
    cases h
    omega

/-- C3, as amended: for every ramp length, every multiplier and every gamma, the
ramp of a channel is exactly the `length` cells from its start, each holding the
conversion of the computed value to `uint16_t`; for a length below `2^31` the
table is exactly the `3 * length` cells `[0, 3 * length)` (and `gamma_table_size`
is `2 * (3 * length)` bytes whenever that fits 32 bits). Every entry the
conversion defines lies in `[0, 65535]`: a computed value `v < 65536` is stored
with its fraction dropped. Nothing is clamped: for a value of 65536 or more, an
infinity or a NaN the conversion, and so the entry, is undefined. -/
theorem table_entries_unsaturated (powf : F32 → F32 → F32) (n : Nat) (shm : Shm)
    (ramp : Nat) (component : F32) (components : Nat → F32) (gamma : F32) :
    (∀ p, fill_gamma_ramp powf n shm ramp component gamma p =
      if ramp ≤ p ∧ p < ramp + n then
        F32.to_uint16 (ramp_value powf n component gamma (p - ramp))
      else shm p) ∧
    (n < 2 ^ 31 →
      (∀ c i, c < channel_count → i < n →
        fill_gamma_table powf n shm components gamma (c * n + i) =
          F32.to_uint16 (ramp_value powf n (components c) gamma i)) ∧
      (∀ p, 3 * n ≤ p → fill_gamma_table powf n shm components gamma p = shm p)) ∧
    (channel_count * 2 * n < UINT32_MOD → gamma_table_size n = 2 * (3 * n)) ∧
    (∀ x k, F32.to_uint16 x = some k → k ≤ 65535) ∧
    (∀ m : ℚ, m < 65536 → F32.to_uint16 (F32.fin false m) = some ⌊m⌋₊) ∧
    (∀ m : ℚ, 65536 ≤ m → F32.to_uint16 (F32.fin false m) = none) ∧
    F32.to_uint16 F32.nan = none ∧
    (∀ s, F32.to_uint16 (F32.inf s) = none) := by
  refine ⟨fill_gamma_ramp_apply powf n shm ramp component gamma, ?_, ?_, to_uint16_le, ?_, ?_,
    rfl, fun _ => rfl⟩
  · intro hn
    exact ⟨fun c i hc hi => fill_gamma_table_inside powf n hn shm components gamma c i hc hi,
      fun p hp => fill_gamma_table_outside powf n hn shm components gamma p hp⟩
  · intro h
    unfold gamma_table_size
    rw [Nat.mod_eq_of_lt h]
    unfold channel_count
    ring
  · intro m hm
    rw [to_uint16_fin_false, if_pos hm]
  · intro m hm
    rw [to_uint16_fin_false, if_neg (by linarith)]

/-- C3 as stated fails: with the red multiplier 2.0 (gamma 1.0, length 2) the last
red value is 131070 and its entry is not 65535; with a NaN multiplier the value is
a NaN and its entry is not 0. -/
theorem overflow_not_clamped :
    ramp_value powf_fixed 2 (F32.fin false 2) F32.one 1 = F32.fin false 131070 ∧
    fill_gamma_table powf_fixed 2 (fun _ => none)
      (Function.update (fun _ => F32.one) 0 (F32.fin false 2)) F32.one (0 * 2 + 1) ≠ some 65535 ∧
    ramp_value powf_fixed 2 F32.nan F32.one 1 = F32.nan ∧
    fill_gamma_table powf_fixed 2 (fun _ => none)
      (Function.update (fun _ => F32.one) 0 F32.nan) F32.one (0 * 2 + 1) ≠ some 0 := by
  refine ⟨?_, ?_, ?_, ?_⟩ <;> decide!

/-! ## Length 1 -/

theorem mul_nan_left (x : F32) : F32.mul F32.nan x = F32.nan := by
  cases x <;> rfl

theorem mul_nan_right (x : F32) : F32.mul x F32.nan = F32.nan := by
  cases x <;> rfl

theorem ofNat_uint16_max : F32.ofNat UINT16_MAX = F32.fin false 65535 := by decide!

theorem normalized_single : F32.div (F32.ofNat 0) (F32.ofNat ((1 + UINT32_MOD - 1) % UINT32_MOD)) =
    F32.nan := by decide!

theorem ramp_value_single (powf : F32 → F32 → F32) (component gamma : F32) :
    ramp_value powf 1 component gamma 0 =
      F32.mul (F32.ofNat UINT16_MAX) (powf F32.nan (F32.div F32.one gamma)) := by
  unfold ramp_value
  rw [normalized_single, mul_nan_left]

theorem rnd_two_zpow_neg_128 : rnd (2 ^ (-128 : ℤ)) = 2 ^ (-128 : ℤ) := by decide!

theorem one_div_ne_zero (s : Bool) (g : ℚ) (hg0 : 0 < g) (hg : g < 2 ^ 128) (t : Bool) :
    F32.div F32.one (F32.fin s g) ≠ F32.fin t 0 := by
  unfold F32.one
  rw [div_fin_fin, if_neg hg0.ne']
  have h1 : (2 : ℚ) ^ (-128 : ℤ) ≤ 1 / g := by
    rw [le_div_iff₀ hg0]
    have : (2 : ℚ) ^ (-128 : ℤ) * 2 ^ (128 : ℕ) = 1 := by norm_num
    nlinarith [two_zpow_pos (-128)]
  have h2 := rnd_mono (two_zpow_pos (-128)).le h1
  rw [rnd_two_zpow_neg_128] at h2
  have h3 : 0 < rnd (1 / g) := lt_of_lt_of_le (two_zpow_pos (-128)) h2
  unfold F32.ofMag
  split_ifs
  · intro h
    injection h with _ h5
    exact h3.ne' h5
  · intro h
    cases h

/-- C4, as amended: when the ramp length is 1 the generator does divide by zero:
the normalized position of index 0 is `0.0f / 0.0f`, a NaN (the division does not
trap), for every triple of multipliers and every gamma. Exactly one entry per
channel is written, at cells 0, 1 and 2, and it is the conversion of
`65535 * powf(NaN, 1 / gamma)`, which is undefined unless `1 / gamma` is zero, so
for every finite nonzero gamma. -/
theorem single_entry_ramp (powf : F32 → F32 → F32) (shm : Shm) (components : Nat → F32)
    (gamma : F32) :
    F32.div (F32.ofNat 0) (F32.ofNat ((1 + UINT32_MOD - 1) % UINT32_MOD)) = F32.nan ∧
    (∀ c, c < channel_count →
      fill_gamma_table powf 1 shm components gamma c =
        F32.to_uint16 (F32.mul (F32.ofNat UINT16_MAX) (powf F32.nan (F32.div F32.one gamma)))) ∧
    (∀ p, 3 ≤ p → fill_gamma_table powf 1 shm components gamma p = shm p) ∧
    (PowfSpec powf → (∀ s, F32.div F32.one gamma ≠ F32.fin s 0) →
      ∀ c, c < channel_count → fill_gamma_table powf 1 shm components gamma c = none) ∧
    (∀ (s : Bool) (m : ℚ), 0 < m → m < 2 ^ 128 →
      ∀ t, F32.div F32.one (F32.fin s m) ≠ F32.fin t 0) := by
  have hcell : ∀ c, c < channel_count →
      fill_gamma_table powf 1 shm components gamma c =
        F32.to_uint16 (F32.mul (F32.ofNat UINT16_MAX) (powf F32.nan (F32.div F32.one gamma))) := by
    intro c hc
    have := fill_gamma_table_inside powf 1 (by norm_num) shm components gamma c 0 hc (by norm_num)
    rw [ramp_value_single] at this
    simpa using this
  refine ⟨normalized_single, hcell, ?_, ?_, one_div_ne_zero⟩
  · intro p hp
    exact fill_gamma_table_outside powf 1 (by norm_num) shm components gamma p (by omega)
  · intro hp hz c hc
    rw [hcell c hc, hp.nan_base _ hz, mul_nan_right]
    rfl

/-- C4 as stated fails: for length 1 the normalized position is a NaN, not 0,
and with multipliers and gamma 1.0 the entry written is undefined. -/
theorem single_entry_divides_by_zero :
    F32.div (F32.ofNat 0) (F32.ofNat ((1 + UINT32_MOD - 1) % UINT32_MOD)) ≠ F32.fin false 0 ∧
    ramp_value powf_fixed 1 F32.one F32.one 0 = F32.nan ∧
    fill_gamma_table powf_fixed 1 (fun _ => some 7) (fun _ => F32.one) F32.one 0 = none := by
  refine ⟨?_, ?_, ?_⟩ <;> decide!

/-! ## A zero multiplier -/

theorem one_div_isPos (g : ℚ) (hg0 : 0 ≤ g) (hg : g < 2 ^ 128) :
    F32.isPos (F32.div F32.one (F32.fin false g)) := by
  unfold F32.one
  rw [div_fin_fin]
  by_cases h0 : g = 0
  · rw [if_pos h0, if_neg (by norm_num)]
    trivial
  · rw [if_neg h0]
    have hgpos : 0 < g := lt_of_le_of_ne hg0 (Ne.symm h0)
    have h1 : (2 : ℚ) ^ (-128 : ℤ) ≤ 1 / g := by
      rw [le_div_iff₀ hgpos]
      have : (2 : ℚ) ^ (-128 : ℤ) * 2 ^ (128 : ℕ) = 1 := by norm_num
      nlinarith [two_zpow_pos (-128)]
    have h2 := rnd_mono (two_zpow_pos (-128)).le h1
    rw [rnd_two_zpow_neg_128] at h2
    have h3 : 0 < rnd (1 / g) := lt_of_lt_of_le (two_zpow_pos (-128)) h2
    unfold F32.ofMag
    split_ifs
    · exact h3
    · trivial

theorem to_uint16_zero (s : Bool) : F32.to_uint16 (F32.fin s 0) = some 0 := by
  cases s
  · rw [to_uint16_fin_false, if_pos (by norm_num)]; simp
  · rw [to_uint16_fin_true, if_pos (by norm_num)]

theorem ofMag_zero (s : Bool) : F32.ofMag s 0 = F32.fin s 0 := by
  unfold F32.ofMag
  rw [rnd_zero, if_pos (by norm_num)]

/-- C5, as amended: for every ramp length above 1, every channel whose multiplier
is a zero (`0.0` or `-0.0`) and every finite gamma that is positive or `+0.0`,
every entry of the channel's ramp is 0. (For a negative gamma `powf(0, 1/gamma)` is
an infinity, and for an infinite gamma it is 1.) -/
theorem zero_multiplier_ramp (powf : F32 → F32 → F32) (hp : PowfSpec powf) (n : Nat)
    (h1 : 1 < n) (h2 : n < UINT32_MOD) (shm : Shm) (ramp : Nat) (s : Bool) (g : ℚ)
    (hg0 : 0 ≤ g) (hg : g < 2 ^ 128) (i : Nat) (hi : i < n) :
    fill_gamma_ramp powf n shm ramp (F32.fin s 0) (F32.fin false g) (ramp + i) = some 0 := by
  rw [fill_gamma_ramp_inside powf n shm ramp _ _ i hi]
  unfold ramp_value
  rw [normalized_eq n i h1 h2 hi, mul_fin_fin, mul_zero, ofMag_zero]
  obtain ⟨t, ht⟩ := hp.zero_pos (xor false s) _ (one_div_isPos g hg0 hg)
  rw [ht, ofNat_uint16_max, mul_fin_fin, mul_zero, ofMag_zero, to_uint16_zero]

/-- A ramp of length 2 with multiplier 0.0 and gamma 2 from `zero_multiplier_ramp`. -/
theorem zero_multiplier_ramp_witness :
    fill_gamma_ramp powf_fixed 2 (fun _ => none) 0 (F32.fin false 0) (F32.fin false 2) (0 + 1) =
      some 0 :=
  zero_multiplier_ramp powf_fixed powf_fixed_spec 2 (by decide) (by decide) (fun _ => none) 0
    false 2 (by norm_num) (by norm_num) 1 (by decide)

/-- C5 as stated fails: with multiplier 0.0 and length 2, gamma `+∞` gives the
entry 65535 (`1/gamma` is 0 and `powf(0, 0)` is 1), and gamma `-1.0` gives
`powf(0, -1) = +∞`, whose entry is not 0. -/
theorem zero_multiplier_other_gamma :
    fill_gamma_ramp powf_fixed 2 (fun _ => none) 0 (F32.fin false 0) (F32.inf false) (0 + 1) =
      some 65535 ∧
    ramp_value powf_fixed 2 (F32.fin false 0) (F32.fin true 1) 1 = F32.inf false ∧
    fill_gamma_ramp powf_fixed 2 (fun _ => none) 0 (F32.fin false 0) (F32.fin true 1) (0 + 1) ≠
      some 0 := by
  refine ⟨?_, ?_, ?_⟩ <;> decide!

/-! ## Layout of the table -/

/-- C6, as amended: for every ramp length `n` below `2^31`, multipliers `m` and
gamma, `fill_gamma_table` writes entry `i` of channel `c` at cell `c * n + i` for
all `c` in `{0, 1, 2}` and `i` in `[0, n)` and leaves every cell from `3 * n` on
as it was; the entry is the conversion of
`65535 * powf((i / (n - 1)) * m[c], 1 / gamma)` (multiplier before exponent), so
it depends on `i`, `n`, `m[c]` and gamma only, and changing the red multiplier
alone leaves the green and blue ramps those of the multiplier 1.0. -/
theorem table_layout (powf : F32 → F32 → F32) (n : Nat) (hn : n < 2 ^ 31) (shm : Shm)
    (components : Nat → F32) (gamma : F32) :
    (∀ c i, c < channel_count → i < n →
      fill_gamma_table powf n shm components gamma (c * n + i) =
        F32.to_uint16
          (F32.mul (F32.ofNat UINT16_MAX)
            (powf
              (F32.mul
                (F32.div (F32.ofNat i) (F32.ofNat ((n + UINT32_MOD - 1) % UINT32_MOD)))
                (components c))
              (F32.div F32.one gamma)))) ∧
    (∀ p, 3 * n ≤ p → fill_gamma_table powf n shm components gamma p = shm p) ∧
    (∀ (shm' : Shm) (components' : Nat → F32) c i, c < channel_count → i < n →
      components' c = components c →
      fill_gamma_table powf n shm' components' gamma (c * n + i) =
        fill_gamma_table powf n shm components gamma (c * n + i)) ∧
    (∀ (red : F32) c i, 1 ≤ c → c < channel_count → i < n →
      fill_gamma_table powf n shm (Function.update (fun _ => F32.one) 0 red) gamma (c * n + i) =
        fill_gamma_table powf n shm (fun _ => F32.one) gamma (c * n + i)) := by
  refine ⟨?_, ?_, ?_, ?_⟩
  · intro c i hc hi
    exact fill_gamma_table_inside powf n hn shm components gamma c i hc hi
  · intro p hp
    exact fill_gamma_table_outside powf n hn shm components gamma p hp
  · intro shm' components' c i hc hi h
    rw [fill_gamma_table_inside powf n hn shm' components' gamma c i hc hi,
      fill_gamma_table_inside powf n hn shm components gamma c i hc hi, h]
  · intro red c i h1 hc hi
    rw [fill_gamma_table_inside powf n hn shm _ gamma c i hc hi,
      fill_gamma_table_inside powf n hn shm _ gamma c i hc hi,
      Function.update_noteq (by omega)]

/-- A table of length 2 with red multiplier 0.5 from `table_layout`. -/
theorem table_layout_witness :
    fill_gamma_table powf_fixed 2 (fun _ => none)
        (Function.update (fun _ => F32.one) 0 (F32.fin false (1 / 2))) F32.one (1 * 2 + 1) =
      fill_gamma_table powf_fixed 2 (fun _ => none) (fun _ => F32.one) F32.one (1 * 2 + 1) :=
  (table_layout powf_fixed 2 (by decide) (fun _ => none) (fun _ => F32.one) F32.one).2.2.2
    (F32.fin false (1 / 2)) 1 1 (by decide) (by decide) (by decide)

/-- C6 as stated fails for the ramp length `2^31`: the offset `gamma_size * 2` of
the blue ramp wraps to 0 in 32 bits, so cell `2 * n + 0` keeps its old content
(here 7) and does not receive entry 0 of channel 2 (which is 0). -/
theorem table_layout_wraps :
    (2 ^ 31 * 2) % UINT32_MOD = 0 ∧
    fill_gamma_table powf_fixed (2 ^ 31) (fun _ => some 7) (fun _ => F32.one) F32.one
        (2 * 2 ^ 31 + 0) = some 7 ∧
    F32.to_uint16 (ramp_value powf_fixed (2 ^ 31) F32.one F32.one 0) = some 0 := by
  refine ⟨by decide, ?_, by decide!⟩
  rw [fill_gamma_table_unfold]
  rw [fill_gamma_ramp_apply, if_neg (by decide), fill_gamma_ramp_apply, if_neg (by decide),
    fill_gamma_ramp_apply, if_neg (by decide)]

/-! ## The output registry -/

theorem on_output_name_fold (s : State) (output : Nat) (name : String) (k : Nat) :
    ∃ names : List (Option String),
      (List.range k).foldl
          (fun st i =>
            if st.outputs.get? i = some output then
              { st with output_names := st.output_names.set i (some name) }
            else st) s = { s with output_names := names } ∧
        names.length = s.output_names.length ∧
        ∀ i, names[i]? =
          if i < k ∧ s.outputs[i]? = some output ∧ i < s.output_names.length then
            some (some name)
          else s.output_names[i]? := by
  induction k with
  | zero => exact ⟨s.output_names, rfl, rfl, by simp⟩
  | succ k ih =>
    obtain ⟨names, h1, h2, h3⟩ := ih
    rw [List.range_succ, List.foldl_append, h1]
    simp only [List.foldl_cons, List.foldl_nil]
    by_cases hk : s.outputs.get? k = some output
    · refine ⟨names.set k (some name), ?_, ?_, ?_⟩
      · rw [if_pos hk]
      · rw [List.length_set, h2]
      · intro i
        rw [List.get?_eq_getElem?] at hk
        by_cases hik : i = k
        · subst hik
          by_cases hlen : i < s.output_names.length
          · rw [List.getElem?_set_self (by omega), if_pos ⟨by omega, hk, hlen⟩]
          · rw [if_neg (by tauto)]
            rw [List.getElem?_eq_none (by rw [List.length_set]; omega),
              List.getElem?_eq_none (by omega)]
        · rw [List.getElem?_set_ne (fun h => hik h.symm), h3 i]
          by_cases hc : i < k ∧ s.outputs[i]? = some output ∧ i < s.output_names.length
          · rw [if_pos hc, if_pos ⟨by omega, hc.2.1, hc.2.2⟩]
          · rw [if_neg hc, if_neg (by
              rintro ⟨h4, h5, h6⟩
              exact hc ⟨by omega, h5, h6⟩)]
    · refine ⟨names, ?_, h2, ?_⟩
      · rw [if_neg hk]
      · intro i
        rw [List.get?_eq_getElem?] at hk
        rw [h3 i]
        by_cases hc : i < k ∧ s.outputs[i]? = some output ∧ i < s.output_names.length
        · rw [if_pos hc, if_pos ⟨by omega, hc.2.1, hc.2.2⟩]
        · rw [if_neg hc, if_neg (by
            rintro ⟨h4, h5, h6⟩
            by_cases hik : i = k
            · subst hik; exact hk h5
            · exact hc ⟨by omega, h5, h6⟩)]

theorem on_output_name_spec (s : State) (output : Nat) (name : String) :
    ∃ names : List (Option String),
      on_output_name s output name = { s with output_names := names } ∧
        names.length = s.output_names.length ∧
        ∀ i, names[i]? =
          if i < s.output_count ∧ s.outputs[i]? = some output ∧ i < s.output_names.length then
            some (some name)
          else s.output_names[i]? :=
  on_output_name_fold s output name s.output_count

theorem on_registry_global_output (s : State) (id version proxy : Nat) :
    on_registry_global s id wl_output_name version proxy =
      { s with
        outputs := s.outputs.take s.output_count ++ [proxy]
        output_names := s.output_names.take s.output_count ++ [none]
        output_count := s.output_count + 1 } := by
  unfold on_registry_global
  rw [if_neg (by decide), if_pos rfl]

theorem on_registry_global_other (s : State) (id version proxy : Nat) (interface : String)
    (h : interface ≠ wl_output_name) :
    on_registry_global s id interface version proxy =
      if interface = zwlr_gamma_control_manager_v1_name then
        { s with gamma_control_manager := proxy }
      else s := by
  unfold on_registry_global
  rw [if_neg h]

/-- C10: for every registry state whose two arrays have `output_count` entries,
the advertisement of a display output yields arrays of `output_count + 1` entries
that are the old ones followed by the new handle and by no name; the advertisement
of any other interface leaves outputs, names and count unchanged; a name event for
handle `h` sets the name of exactly the entries whose handle is `h` and changes no
handle, no other name and not the count. -/
theorem registry_append_only (s : State) (h1 : s.outputs.length = s.output_count)
    (h2 : s.output_names.length = s.output_count) :
    (∀ id version proxy,
      (on_registry_global s id wl_output_name version proxy).outputs = s.outputs ++ [proxy] ∧
      (on_registry_global s id wl_output_name version proxy).output_names =
        s.output_names ++ [none] ∧
      (on_registry_global s id wl_output_name version proxy).output_count =
        s.output_count + 1) ∧
    (∀ id interface version proxy, interface ≠ wl_output_name →
      (on_registry_global s id interface version proxy).outputs = s.outputs ∧
      (on_registry_global s id interface version proxy).output_names = s.output_names ∧
      (on_registry_global s id interface version proxy).output_count = s.output_count) ∧
    (∀ h name,
      (on_output_name s h name).outputs = s.outputs ∧
      (on_output_name s h name).output_count = s.output_count ∧
      (on_output_name s h name).output_names.length = s.output_count ∧
      ∀ i, i < s.output_count →
        (on_output_name s h name).output_names[i]? =
          if s.outputs[i]? = some h then some (some name) else s.output_names[i]?) := by
  refine ⟨?_, ?_, ?_⟩
  · intro id version proxy
    rw [on_registry_global_output]
    simp only
    rw [← h1, List.take_length, h1, ← h2, List.take_length]
    simp
  · intro id interface version proxy h
    rw [on_registry_global_other s id version proxy interface h]
    split_ifs <;> simp
  · intro h name
    obtain ⟨names, e1, e2, e3⟩ := on_output_name_spec s h name
    rw [e1]
    refine ⟨rfl, rfl, by simpa [h2] using e2, ?_⟩
    intro i hi
    simp only
    rw [e3 i]
    by_cases hc : s.outputs[i]? = some h
    · rw [if_pos ⟨hi, hc, by omega⟩, if_pos hc]
    · rw [if_neg (by tauto), if_neg hc]

/-- The registry of `env_two_outputs` after discovery, from `registry_append_only`. -/
theorem registry_append_only_witness :
    (on_registry_global (stage_discover env_two_outputs) 5 wl_output_name 4 2004).outputs =
      (stage_discover env_two_outputs).outputs ++ [2004] :=
  ((registry_append_only (stage_discover env_two_outputs) (by decide!) (by decide!)).1
    5 4 2004).1

/-! ## Logs and invariants of the round trips -/

theorem Grows.refl (s : State) : Grows s s := ⟨[], by simp, by simp⟩

theorem Grows.trans {a b c : State} (h1 : Grows a b) (h2 : Grows b c) : Grows a c := by
  obtain ⟨t1, e1, p1⟩ := h1
  obtain ⟨t2, e2, p2⟩ := h2
  refine ⟨t1 ++ t2, by rw [e2, e1, List.append_assoc], ?_⟩
  intro x hx
  rcases List.mem_append.1 hx with h | h
  · exact p1 x h
  · exact p2 x h

theorem Grows.emit (s : State) (a : Act) (h : Act.passive a) : Grows s (s.emit a) :=
  ⟨[a], rfl, by simpa using h⟩

theorem Grows.of_log_eq {s r : State} (h : r.log = s.log) : Grows s r :=
  ⟨[], by simp [h], by simp⟩

theorem Grows.mem {s r : State} (h : Grows s r) {a : Act} (ha : a ∈ s.log) : a ∈ r.log := by
  obtain ⟨t, e, -⟩ := h
  rw [e]
  exact List.mem_append_left t ha

theorem Grows.mem_cases {s r : State} (h : Grows s r) {a : Act} (ha : a ∈ r.log) :
    a ∈ s.log ∨ Act.passive a := by
  obtain ⟨t, e, p⟩ := h
  rw [e] at ha
  rcases List.mem_append.1 ha with h1 | h1
  · exact Or.inl h1
  · exact Or.inr (p a h1)

theorem Grows.foldl_emit {α : Type} (f : State → α → Act) (hf : ∀ st x, Act.passive (f st x))
    (l : List α) : ∀ s, Grows s (l.foldl (fun st x => st.emit (f st x)) s) := by
  induction l with
  | nil => intro s; exact Grows.refl s
  | cons x xs ih =>
    intro s
    exact (Grows.emit s _ (hf s x)).trans (ih _)

theorem wf_init : State.init.wf := ⟨rfl, rfl⟩

theorem dispatch_grows (s : State) (e : Event) : Grows s (dispatch s e) := by
  cases e with
  | global id interface version proxy =>
    apply Grows.of_log_eq
    simp only [dispatch, on_registry_global]
    split_ifs <;> rfl
  | output_name output name =>
    obtain ⟨names, e1, -, -⟩ := on_output_name_spec s output name
    apply Grows.of_log_eq
    simp only [dispatch]
    rw [e1]
  | gamma_size size =>
    apply Grows.of_log_eq
    simp only [dispatch, on_gamma_control_gamma_size]
    split_ifs <;> rfl
  | failed =>
    simp only [dispatch, on_gamma_control_failed]
    split_ifs
    · exact Grows.refl s
    · exact Grows.emit s (Act.stderr msg_failed) trivial

theorem dispatch_wf (s : State) (e : Event) (h : s.wf) :
    (dispatch s e).wf ∧ s.outputs <+: (dispatch s e).outputs := by
  obtain ⟨h1, h2⟩ := h
  cases e with
  | global id interface version proxy =>
    simp only [dispatch, on_registry_global]
    split_ifs
    · exact ⟨⟨h1, h2⟩, List.prefix_refl _⟩
    · refine ⟨⟨?_, ?_⟩, ?_⟩
      · simp [h1]
      · simp [h2]
      · simp only
        rw [← h1, List.take_length]
        exact List.prefix_append _ _
    · exact ⟨⟨h1, h2⟩, List.prefix_refl _⟩
  | output_name output name =>
    obtain ⟨names, e1, e2, -⟩ := on_output_name_spec s output name
    simp only [dispatch]
    rw [e1]
    exact ⟨⟨h1, by simpa [h2] using e2⟩, List.prefix_refl _⟩
  | gamma_size size =>
    simp only [dispatch, on_gamma_control_gamma_size]
    split_ifs <;> exact ⟨⟨h1, h2⟩, List.prefix_refl _⟩
  | failed =>
    simp only [dispatch, on_gamma_control_failed]
    split_ifs <;> exact ⟨⟨h1, h2⟩, List.prefix_refl _⟩

theorem foldl_dispatch_grows (l : List Event) : ∀ s, Grows s (l.foldl dispatch s) := by
  induction l with
  | nil => intro s; exact Grows.refl s
  | cons e es ih => intro s; exact (dispatch_grows s e).trans (ih _)

theorem foldl_dispatch_wf (l : List Event) :
    ∀ s : State, s.wf → (l.foldl dispatch s).wf ∧ s.outputs <+: (l.foldl dispatch s).outputs := by
  induction l with
  | nil => intro s h; exact ⟨h, List.prefix_refl _⟩
  | cons e es ih =>
    intro s h
    obtain ⟨h1, h2⟩ := dispatch_wf s e h
    obtain ⟨h3, h4⟩ := ih _ h1
    exact ⟨h3, h2.trans h4⟩

theorem roundtrip_grows (env : Env) (k : Nat) (s : State) :
    Grows s (wl_display_roundtrip env k s) :=
  (Grows.emit s Act.wl_display_roundtrip trivial).trans (foldl_dispatch_grows _ _)

theorem roundtrip_wf (env : Env) (k : Nat) (s : State) (h : s.wf) :
    (wl_display_roundtrip env k s).wf ∧ s.outputs <+: (wl_display_roundtrip env k s).outputs :=
  foldl_dispatch_wf _ (s.emit Act.wl_display_roundtrip) h

theorem finish_outcome (s : State) (retcode : Int) :
    (finish s retcode).outcome = Outcome.exit retcode := rfl

theorem grows_ite (c : Prop) [Decidable c] (s : State) (a : Act) (h : Act.passive a) :
    Grows s (if c then s.emit a else s) := by
  split_ifs
  · exact Grows.emit s a h
  · exact Grows.refl s

theorem finish_grows (s : State) (retcode : Int) : Grows s (finish s retcode).final := by
  let s1 : State :=
    if s.shm_data > 0 then s.emit (Act.munmap (gamma_table_size s.gamma_size)) else s
  have g1 : Grows s s1 := grows_ite _ s (Act.munmap (gamma_table_size s.gamma_size)) trivial
  let s2 : State := if s1.shm_fd ≥ 0 then s1.emit (Act.close s1.shm_fd) else s1
  have g2 : Grows s1 s2 := grows_ite _ s1 (Act.close s1.shm_fd) trivial
  let s3 : State := (List.range s2.output_count).foldl
    (fun st i => st.emit (Act.wl_output_destroy (st.outputs.getD i 0))) s2
  have g3 : Grows s2 s3 :=
    Grows.foldl_emit (fun st i => Act.wl_output_destroy (st.outputs.getD i 0))
      (fun _ _ => trivial) _ s2
  let s4 : State := if s3.gamma_control ≠ 0 then s3.emit Act.gamma_control_destroy else s3
  have g4 : Grows s3 s4 := grows_ite _ s3 Act.gamma_control_destroy trivial
  let s5 : State :=
    if s4.gamma_control_manager ≠ 0 then s4.emit Act.gamma_control_manager_destroy else s4
  have g5 : Grows s4 s5 := grows_ite _ s4 Act.gamma_control_manager_destroy trivial
  let s6 : State := if s5.registry ≠ 0 then s5.emit Act.wl_registry_destroy else s5
  have g6 : Grows s5 s6 := grows_ite _ s5 Act.wl_registry_destroy trivial
  let s7 : State := if s6.display ≠ 0 then s6.emit Act.wl_display_disconnect else s6
  have g7 : Grows s6 s7 := grows_ite _ s6 Act.wl_display_disconnect trivial
  exact g1.trans (g2.trans (g3.trans (g4.trans (g5.trans (g6.trans g7)))))

/-! ## The stages of `main` -/

theorem stage_connect_log (env : Env) : (stage_connect env).log = [Act.wl_display_connect] := rfl

theorem stage_discover_wf (env : Env) : (stage_discover env).wf :=
  (roundtrip_wf env 0 _ ⟨rfl, rfl⟩).1

theorem stage_discover_mem (env : Env) {a : Act} (h : a ∈ (stage_discover env).log) :
    a = Act.wl_display_connect ∨ a = Act.wl_display_get_registry ∨ Act.passive a := by
  rcases (roundtrip_grows env 0 _).mem_cases h with h1 | h1
  · have : a ∈ [Act.wl_display_connect, Act.wl_display_get_registry] := h1
    simp at this
    tauto
  · exact Or.inr (Or.inr h1)

theorem connect_mem_stage_discover (env : Env) :
    Act.wl_display_connect ∈ (stage_discover env).log :=
  (roundtrip_grows env 0 _).mem (by
    show Act.wl_display_connect ∈ [Act.wl_display_connect, Act.wl_display_get_registry]
    simp)

theorem stage_bind_log (env : Env) (output_index : Int) :
    (stage_bind env output_index).log =
      (wl_display_roundtrip env 1 (stage_discover env)).log ++
        [Act.get_gamma_control
          (output_at (wl_display_roundtrip env 1 (stage_discover env)) output_index)] := rfl

theorem stage_bind_mem (env : Env) (output_index : Int) {a : Act}
    (h : a ∈ (stage_bind env output_index).log) :
    a = Act.wl_display_connect ∨ a = Act.wl_display_get_registry ∨
      (∃ t, a = Act.get_gamma_control t) ∨ Act.passive a := by
  rw [stage_bind_log] at h
  rcases List.mem_append.1 h with h1 | h1
  · rcases (roundtrip_grows env 1 _).mem_cases h1 with h2 | h2
    · rcases stage_discover_mem env h2 with h3 | h3 | h3
      · exact Or.inl h3
      · exact Or.inr (Or.inl h3)
      · exact Or.inr (Or.inr (Or.inr h3))
    · exact Or.inr (Or.inr (Or.inr h2))
  · simp at h1
    exact Or.inr (Or.inr (Or.inl ⟨_, h1⟩))

theorem stage_size_mem (env : Env) (output_index : Int) {a : Act}
    (h : a ∈ (stage_size env output_index).log) :
    a = Act.wl_display_connect ∨ a = Act.wl_display_get_registry ∨
      (∃ t, a = Act.get_gamma_control t) ∨ Act.passive a := by
  rcases (roundtrip_grows env 2 _).mem_cases h with h1 | h1
  · exact stage_bind_mem env output_index h1
  · exact Or.inr (Or.inr (Or.inr h1))

/-- The log of a run that ends by reporting `msg` from state `s`. -/
theorem fail_mem (s : State) (msg : String) (retcode : Int) {a : Act}
    (h : a ∈ (finish (s.emit (Act.stderr msg)) retcode).final.log) :
    a ∈ s.log ∨ Act.passive a := by
  rcases (finish_grows _ retcode).mem_cases h with h1 | h1
  · rcases (Grows.emit s (Act.stderr msg) trivial).mem_cases h1 with h2 | h2
    · exact Or.inl h2
    · exact Or.inr h2
  · exact Or.inr h1

theorem fail_msg_mem (s : State) (msg : String) (retcode : Int) :
    Act.stderr msg ∈ (finish (s.emit (Act.stderr msg)) retcode).final.log :=
  (finish_grows _ retcode).mem (by
    show Act.stderr msg ∈ s.log ++ [Act.stderr msg]
    simp)

theorem fail_keeps (s : State) (msg : String) (retcode : Int) {a : Act} (h : a ∈ s.log) :
    a ∈ (finish (s.emit (Act.stderr msg)) retcode).final.log :=
  (finish_grows _ retcode).mem ((Grows.emit s (Act.stderr msg) trivial).mem h)

theorem output_at_discovered (env : Env) (oi : Int) (h0 : 0 ≤ oi)
    (h1 : oi < ((stage_discover env).output_count : Int)) :
    ∃ h, (stage_discover env).outputs[oi.toNat]? = some h ∧
      output_at (wl_display_roundtrip env 1 (stage_discover env)) oi = some h := by
  obtain ⟨hlen, -⟩ := stage_discover_wf env
  have hi : oi.toNat < (stage_discover env).outputs.length := by omega
  obtain ⟨t, ht⟩ := (roundtrip_wf env 1 _ (stage_discover_wf env)).2
  refine ⟨(stage_discover env).outputs[oi.toNat], List.getElem?_eq_getElem hi, ?_⟩
  unfold output_at
  rw [if_pos h0, List.get?_eq_getElem?, ← ht, List.getElem?_append_left hi,
    List.getElem?_eq_getElem hi]

theorem output_at_ne_none (env : Env) (oi : Int) (h0 : 0 ≤ oi)
    (h1 : oi < ((stage_discover env).output_count : Int)) :
    output_at (wl_display_roundtrip env 1 (stage_discover env)) oi ≠ none := by
  obtain ⟨h, -, e⟩ := output_at_discovered env oi h0 h1
  rw [e]
  exact Option.some_ne_none h

/-! ## What a run writes to the error stream -/

theorem GrowsBy.refl_by (P : Act → Prop) (s : State) : GrowsBy P s s := ⟨[], by simp, by simp⟩

theorem GrowsBy.trans_by {P : Act → Prop} {a b c : State} (h1 : GrowsBy P a b)
    (h2 : GrowsBy P b c) : GrowsBy P a c := by
  obtain ⟨t1, e1, p1⟩ := h1
  obtain ⟨t2, e2, p2⟩ := h2
  refine ⟨t1 ++ t2, by rw [e2, e1, List.append_assoc], ?_⟩
  intro x hx
  rcases List.mem_append.1 hx with h | h
  · exact p1 x h
  · exact p2 x h

theorem GrowsBy.emit_by {P : Act → Prop} (s : State) (a : Act) (h : P a) :
    GrowsBy P s (s.emit a) :=
  ⟨[a], rfl, by simpa using h⟩

theorem GrowsBy.of_log_eq_by {P : Act → Prop} {s r : State} (h : r.log = s.log) :
    GrowsBy P s r :=
  ⟨[], by simp [h], by simp⟩

theorem GrowsBy.mem_cases_by {P : Act → Prop} {s r : State} (h : GrowsBy P s r) {a : Act}
    (ha : a ∈ r.log) : a ∈ s.log ∨ P a := by
  obtain ⟨t, e, p⟩ := h
  rw [e] at ha
  rcases List.mem_append.1 ha with h1 | h1
  · exact Or.inl h1
  · exact Or.inr (p a h1)

theorem GrowsBy.foldl_emit_by {P : Act → Prop} {α : Type} (f : State → α → Act)
    (hf : ∀ st x, P (f st x)) (l : List α) :
    ∀ s, GrowsBy P s (l.foldl (fun st x => st.emit (f st x)) s) := by
  induction l with
  | nil => intro s; exact GrowsBy.refl_by P s
  | cons x xs ih =>
    intro s
    exact (GrowsBy.emit_by s _ (hf s x)).trans_by (ih _)

theorem growsBy_ite {P : Act → Prop} (c : Prop) [Decidable c] (s : State) (a : Act)
    (h : P a) : GrowsBy P s (if c then s.emit a else s) := by
  split_ifs
  · exact GrowsBy.emit_by s a h
  · exact GrowsBy.refl_by P s

theorem dispatch_growsBy (s : State) (e : Event) : GrowsBy Act.dispatched s (dispatch s e) := by
  cases e with
  | global id interface version proxy =>
    apply GrowsBy.of_log_eq_by
    simp only [dispatch, on_registry_global]
    split_ifs <;> rfl
  | output_name output name =>
    obtain ⟨names, e1, -, -⟩ := on_output_name_spec s output name
    apply GrowsBy.of_log_eq_by
    simp only [dispatch]
    rw [e1]
  | gamma_size size =>
    apply GrowsBy.of_log_eq_by
    simp only [dispatch, on_gamma_control_gamma_size]
    split_ifs <;> rfl
  | failed =>
    simp only [dispatch, on_gamma_control_failed]
    split_ifs
    · exact GrowsBy.refl_by _ s
    · exact GrowsBy.emit_by s (Act.stderr msg_failed) (Or.inr rfl)

theorem foldl_dispatch_growsBy (l : List Event) :
    ∀ s, GrowsBy Act.dispatched s (l.foldl dispatch s) := by
  induction l with
  | nil => intro s; exact GrowsBy.refl_by _ s
  | cons e es ih => intro s; exact (dispatch_growsBy s e).trans_by (ih _)

theorem roundtrip_growsBy (env : Env) (k : Nat) (s : State) :
    GrowsBy Act.dispatched s (wl_display_roundtrip env k s) :=
  (GrowsBy.emit_by s Act.wl_display_roundtrip (Or.inl rfl)).trans_by (foldl_dispatch_growsBy _ _)

theorem roundtrip_stderr (env : Env) (k : Nat) (s : State) {m : String}
    (h : Act.stderr m ∈ (wl_display_roundtrip env k s).log) :
    Act.stderr m ∈ s.log ∨ m = msg_failed := by
  rcases (roundtrip_growsBy env k s).mem_cases_by h with h1 | h1 | h1
  · exact Or.inl h1
  · cases h1
  · injection h1 with h2
    exact Or.inr h2

theorem finish_releases (s : State) (retcode : Int) :
    GrowsBy Act.release s (finish s retcode).final := by
  let s1 : State :=
    if s.shm_data > 0 then s.emit (Act.munmap (gamma_table_size s.gamma_size)) else s
  have g1 : GrowsBy Act.release s s1 :=
    growsBy_ite _ s (Act.munmap (gamma_table_size s.gamma_size)) trivial
  let s2 : State := if s1.shm_fd ≥ 0 then s1.emit (Act.close s1.shm_fd) else s1
  have g2 : GrowsBy Act.release s1 s2 := growsBy_ite _ s1 (Act.close s1.shm_fd) trivial
  let s3 : State := (List.range s2.output_count).foldl
    (fun st i => st.emit (Act.wl_output_destroy (st.outputs.getD i 0))) s2
  have g3 : GrowsBy Act.release s2 s3 :=
    GrowsBy.foldl_emit_by (fun st i => Act.wl_output_destroy (st.outputs.getD i 0))
      (fun _ _ => trivial) _ s2
  let s4 : State := if s3.gamma_control ≠ 0 then s3.emit Act.gamma_control_destroy else s3
  have g4 : GrowsBy Act.release s3 s4 := growsBy_ite _ s3 Act.gamma_control_destroy trivial
  let s5 : State :=
    if s4.gamma_control_manager ≠ 0 then s4.emit Act.gamma_control_manager_destroy else s4
  have g5 : GrowsBy Act.release s4 s5 :=
    growsBy_ite _ s4 Act.gamma_control_manager_destroy trivial
  let s6 : State := if s5.registry ≠ 0 then s5.emit Act.wl_registry_destroy else s5
  have g6 : GrowsBy Act.release s5 s6 := growsBy_ite _ s5 Act.wl_registry_destroy trivial
  let s7 : State := if s6.display ≠ 0 then s6.emit Act.wl_display_disconnect else s6
  have g7 : GrowsBy Act.release s6 s7 := growsBy_ite _ s6 Act.wl_display_disconnect trivial
  exact g1.trans_by (g2.trans_by (g3.trans_by (g4.trans_by (g5.trans_by (g6.trans_by g7)))))

theorem finish_stderr (s : State) (retcode : Int) {m : String}
    (h : Act.stderr m ∈ (finish s retcode).final.log) : Act.stderr m ∈ s.log := by
  rcases (finish_releases s retcode).mem_cases_by h with h1 | h1
  · exact h1
  · exact absurd h1 (fun h2 => h2)

theorem fail_stderr (s : State) (msg : String) (retcode : Int) {m : String}
    (h : Act.stderr m ∈ (finish (s.emit (Act.stderr msg)) retcode).final.log) :
    Act.stderr m ∈ s.log ∨ m = msg := by
  have h1 : Act.stderr m ∈ s.log ++ [Act.stderr msg] := finish_stderr _ retcode h
  rcases List.mem_append.1 h1 with h2 | h2
  · exact Or.inl h2
  · have h3 := List.mem_singleton.1 h2
    injection h3 with h4
    exact Or.inr h4

theorem stage_discover_stderr (env : Env) {m : String}
    (h : Act.stderr m ∈ (stage_discover env).log) : m = msg_failed := by
  rcases roundtrip_stderr env 0 _ h with h1 | h1
  · have : Act.stderr m ∈ [Act.wl_display_connect, Act.wl_display_get_registry] := h1
    simp at this
  · exact h1

theorem stage_bind_stderr (env : Env) (oi : Int) {m : String}
    (h : Act.stderr m ∈ (stage_bind env oi).log) : m = msg_failed := by
  rw [stage_bind_log] at h
  rcases List.mem_append.1 h with h1 | h1
  · rcases roundtrip_stderr env 1 _ h1 with h2 | h2
    · exact stage_discover_stderr env h2
    · exact h2
  · simp at h1

theorem stage_size_stderr (env : Env) (oi : Int) {m : String}
    (h : Act.stderr m ∈ (stage_size env oi).log) : m = msg_failed := by
  rcases roundtrip_stderr env 2 _ h with h1 | h1
  · exact stage_bind_stderr env oi h1
  · exact h1

/-! ## The option loop and the no-op configuration -/

theorem parse_options_run (env : Env) :
    ∀ opts : List Opt, (∀ o ∈ opts, Opt.converts o) →
      ∀ (s : State) (oi : Int) (c : Nat → F32) (g : F32),
        ∃ oi' c' g', parse_options env opts s oi c g = Parsed.run oi' c' g' ∧
          c' 0 = ((opts.filterMap Opt.red).getLast?).getD (c 0) ∧
          c' 1 = ((opts.filterMap Opt.green).getLast?).getD (c 1) ∧
          c' 2 = ((opts.filterMap Opt.blue).getLast?).getD (c 2) ∧
          g' = ((opts.filterMap Opt.gamma).getLast?).getD g := by
  intro opts
  induction opts with
  | nil =>
    intro _ s oi c g
    exact ⟨oi, c, g, rfl, rfl, rfl, rfl, rfl⟩
  | cons o rest ih =>
    intro hok s oi c g
    have hrest : ∀ o ∈ rest, Opt.converts o := fun o ho => hok o (List.mem_cons_of_mem _ ho)
    have ho : Opt.converts o := hok o (List.mem_cons_self _ _)
    cases o with
    | h => exact absurd ho (by simp [Opt.converts])
    | v => exact absurd ho (by simp [Opt.converts])
    | l => exact absurd ho (by simp [Opt.converts])
    | other =>
      obtain ⟨oi', c', g', e, h0, h1, h2, h3⟩ := ih hrest s oi c g
      exact ⟨oi', c', g', by rw [parse_options, e], by simpa [Opt.red] using h0,
        by simpa [Opt.green] using h1, by simpa [Opt.blue] using h2,
        by simpa [Opt.gamma] using h3⟩
    | o optarg p =>
      cases p with
      | none => exact absurd ho (by simp [Opt.converts])
      | some u =>
        obtain ⟨oi', c', g', e, h0, h1, h2, h3⟩ := ih hrest s (int_of_ulong u) c g
        exact ⟨oi', c', g', by rw [parse_options, e], by simpa [Opt.red] using h0,
          by simpa [Opt.green] using h1, by simpa [Opt.blue] using h2,
          by simpa [Opt.gamma] using h3⟩
    | r optarg p =>
      cases p with
      | none => exact absurd ho (by simp [Opt.converts])
      | some x =>
        obtain ⟨oi', c', g', e, h0, h1, h2, h3⟩ := ih hrest s oi (Function.update c 0 x) g
        exact ⟨oi', c', g', by rw [parse_options, e],
          by simpa [Opt.red, List.getLast?_cons] using h0,
          by simpa [Opt.green] using h1, by simpa [Opt.blue] using h2,
          by simpa [Opt.gamma] using h3⟩
    | g optarg p =>
      cases p with
      | none => exact absurd ho (by simp [Opt.converts])
      | some x =>
        obtain ⟨oi', c', g', e, h0, h1, h2, h3⟩ := ih hrest s oi (Function.update c 1 x) g
        exact ⟨oi', c', g', by rw [parse_options, e],
          by simpa [Opt.red] using h0,
          by simpa [Opt.green, List.getLast?_cons] using h1, by simpa [Opt.blue] using h2,
          by simpa [Opt.gamma] using h3⟩
    | b optarg p =>
      cases p with
      | none => exact absurd ho (by simp [Opt.converts])
      | some x =>
        obtain ⟨oi', c', g', e, h0, h1, h2, h3⟩ := ih hrest s oi (Function.update c 2 x) g
        exact ⟨oi', c', g', by rw [parse_options, e],
          by simpa [Opt.red] using h0,
          by simpa [Opt.green] using h1, by simpa [Opt.blue, List.getLast?_cons] using h2,
          by simpa [Opt.gamma] using h3⟩
    | G optarg p =>
      cases p with
      | none => exact absurd ho (by simp [Opt.converts])
      | some x =>
        obtain ⟨oi', c', g', e, h0, h1, h2, h3⟩ := ih hrest s oi c x
        exact ⟨oi', c', g', by rw [parse_options, e],
          by simpa [Opt.red] using h0,
          by simpa [Opt.green] using h1, by simpa [Opt.blue] using h2,
          by simpa [Opt.gamma, List.getLast?_cons] using h3⟩

theorem no_effect_iff (c : Nat → F32) (g : F32) :
    no_effect c g = true ↔
      F32.eq g F32.one = true ∧ F32.eq (c 0) F32.one = true ∧ F32.eq (c 1) F32.one = true ∧
        F32.eq (c 2) F32.one = true := by
  unfold no_effect channel_count
  simp [List.range_succ, and_assoc]

theorem main_run (powf : F32 → F32 → F32) (env : Env) (opts : List Opt) (oi : Int)
    (c : Nat → F32) (g : F32)
    (hparse : parse_options env opts State.init 0 (fun _ => F32.one) F32.one = Parsed.run oi c g) :
    main powf env opts =
      if no_effect c g then finish (display_help State.init) 0
      else if (stage_connect env).display = 0 then
        finish ((stage_connect env).emit (Act.stderr "Failed to connect to Wayland server.\n")) 1
      else if (stage_discover env).gamma_control_manager = 0 then
        finish ((stage_discover env).emit (Act.stderr msg_no_manager)) 1
      else if (stage_discover env).output_count = 0 then
        finish ((stage_discover env).emit (Act.stderr msg_no_outputs)) 1
      else if ((stage_discover env).output_count : Int) ≤ oi then
        finish ((stage_discover env).emit (Act.stderr (msg_no_index oi))) 1
      else if output_at (wl_display_roundtrip env 1 (stage_discover env)) oi = none then
        { outcome := Outcome.fault, final := stage_bind env oi }
      else if (stage_bind env oi).gamma_control = 0 then
        finish ((stage_bind env oi).emit (Act.stderr msg_no_control)) 1
      else if (stage_size env oi).gamma_size = 0 then
        finish ((stage_size env oi).emit (Act.stderr msg_no_size)) 1
      else main_shm powf env c g (stage_size env oi) := by
  unfold main
  rw [hparse]

theorem Grows.log_extends {s r : State} (h : Grows s r) : s.log <+: r.log := by
  obtain ⟨t, e, -⟩ := h
  exact ⟨t, e.symm⟩

theorem session_loop_extends (env : Env) :
    ∀ (n k : Nat) (s : State), s.log <+: (session_loop env n k s).log := by
  intro n
  induction n with
  | zero => intro k s; exact List.prefix_refl _
  | succ n ih =>
    intro k s
    exact (roundtrip_grows env k s).log_extends.trans (ih (k + 1) _)

theorem extends_finish {l : List Act} {s : State} (retcode : Int) (h : l <+: s.log) :
    l <+: (finish s retcode).final.log :=
  h.trans (finish_grows s retcode).log_extends

theorem extends_emit {l : List Act} {s : State} (a : Act) (h : l <+: s.log) :
    l <+: (s.emit a).log :=
  h.trans (List.prefix_append _ _)

theorem stage_shm_open_log (env : Env) (s : State) :
    (stage_shm_open env s).log = s.log ++ [Act.shm_open] := rfl

theorem stage_mmap_log (env : Env) (s : State) :
    (stage_mmap env s).log =
      s.log ++ [Act.shm_open, Act.shm_unlink, Act.ftruncate (gamma_table_size s.gamma_size),
        Act.mmap (gamma_table_size s.gamma_size)] := by
  show (((s.log ++ [Act.shm_open]) ++ [Act.shm_unlink]) ++
    [Act.ftruncate (gamma_table_size s.gamma_size)]) ++
      [Act.mmap (gamma_table_size s.gamma_size)] = _
  simp only [List.append_assoc, List.singleton_append, List.cons_append, List.nil_append]

theorem stage_set_gamma_log (powf : F32 → F32 → F32) (env : Env) (c : Nat → F32) (g : F32)
    (s : State) :
    (stage_set_gamma powf env c g s).log =
      (s.log ++ [Act.shm_open, Act.shm_unlink, Act.ftruncate (gamma_table_size s.gamma_size),
        Act.mmap (gamma_table_size s.gamma_size)]) ++
        [Act.fill_gamma_table, Act.set_gamma env.shm_open] := by
  show ((stage_mmap env s).log ++ [Act.fill_gamma_table]) ++ [Act.set_gamma env.shm_open] = _
  rw [stage_mmap_log]
  simp only [List.append_assoc, List.singleton_append, List.cons_append, List.nil_append]

theorem extends_of_eq {l tail : List Act} {s : State} (h : s.log = l ++ tail) : l <+: s.log :=
  ⟨tail, h.symm⟩

theorem main_shm_extends (powf : F32 → F32 → F32) (env : Env) (c : Nat → F32) (g : F32)
    (s : State) : s.log <+: (main_shm powf env c g s).final.log := by
  have hopen : s.log <+: (stage_shm_open env s).log := extends_of_eq (stage_shm_open_log env s)
  have hmap : s.log <+: (stage_mmap env s).log := extends_of_eq (stage_mmap_log env s)
  have hset : s.log <+: (stage_set_gamma powf env c g s).log :=
    extends_of_eq ((stage_set_gamma_log powf env c g s).trans (List.append_assoc _ _ _))
  unfold main_shm
  split_ifs
  · exact extends_finish 1 (extends_emit _ hopen)
  · exact extends_finish 1 (extends_emit _ (extends_emit _ hopen))
  · exact extends_finish 1 (extends_emit _ (extends_emit _ (extends_emit _ hopen)))
  · exact extends_finish 1 (extends_emit _ hmap)
  · exact extends_emit _ hmap
  · cases env.loop with
    | none => exact hset
    | some n => exact extends_finish 0 (hset.trans (session_loop_extends env n 3 _))

theorem eq_one_one : F32.eq F32.one F32.one = true := by decide!

theorem help_run (powf : F32 → F32 → F32) (env : Env) (opts : List Opt) (oi : Int)
    (c : Nat → F32) (g : F32)
    (hparse : parse_options env opts State.init 0 (fun _ => F32.one) F32.one = Parsed.run oi c g)
    (h : no_effect c g = true) :
    (main powf env opts).outcome = Outcome.exit 0 ∧
      (main powf env opts).final.log = [Act.stdout help_text] := by
  rw [main_run powf env opts oi c g hparse, if_pos h]
  exact ⟨rfl, rfl⟩

theorem connect_run (powf : F32 → F32 → F32) (env : Env) (opts : List Opt) (oi : Int)
    (c : Nat → F32) (g : F32)
    (hparse : parse_options env opts State.init 0 (fun _ => F32.one) F32.one = Parsed.run oi c g)
    (h : ¬ no_effect c g = true) :
    Act.wl_display_connect ∈ (main powf env opts).final.log := by
  rw [main_run powf env opts oi c g hparse, if_neg h]
  have hb : Act.wl_display_connect ∈ (stage_bind env oi).log := by
    rw [stage_bind_log]
    exact List.mem_append_left _ ((roundtrip_grows env 1 _).mem (connect_mem_stage_discover env))
  have hs : Act.wl_display_connect ∈ (stage_size env oi).log := (roundtrip_grows env 2 _).mem hb
  split_ifs
  · exact fail_keeps _ _ _ (by rw [stage_connect_log]; simp)
  · exact fail_keeps _ _ _ (connect_mem_stage_discover env)
  · exact fail_keeps _ _ _ (connect_mem_stage_discover env)
  · exact fail_keeps _ _ _ (connect_mem_stage_discover env)
  · exact hb
  · exact fail_keeps _ _ _ hb
  · exact fail_keeps _ _ _ hs
  · exact (main_shm_extends powf env c g _).subset hs

/-- C7: for every argument list without `-h`, `-v` or `-l` whose options all
convert, the option loop ends with the multipliers and the gamma set by the last
`-r`, `-g`, `-b` and `-G` (1.0 where there is none); if all four compare equal to
1.0, `main` prints the help text, returns 0 and performs no other action (it never
connects), and otherwise it does call `wl_display_connect`. In particular a list
with no `-r`, `-g`, `-b`, `-G` (no flags, or only `-o`) prints the help. -/
theorem no_op_configuration (powf : F32 → F32 → F32) (env : Env) (opts : List Opt)
    (hok : ∀ o ∈ opts, Opt.converts o) :
    (∃ oi c g,
      parse_options env opts State.init 0 (fun _ => F32.one) F32.one = Parsed.run oi c g ∧
      c 0 = last_value Opt.red opts ∧ c 1 = last_value Opt.green opts ∧
      c 2 = last_value Opt.blue opts ∧ g = last_value Opt.gamma opts ∧
      ((F32.eq (c 0) F32.one = true ∧ F32.eq (c 1) F32.one = true ∧
          F32.eq (c 2) F32.one = true ∧ F32.eq g F32.one = true) →
        (main powf env opts).outcome = Outcome.exit 0 ∧
          (main powf env opts).final.log = [Act.stdout help_text]) ∧
      (¬ (F32.eq (c 0) F32.one = true ∧ F32.eq (c 1) F32.one = true ∧
          F32.eq (c 2) F32.one = true ∧ F32.eq g F32.one = true) →
        Act.wl_display_connect ∈ (main powf env opts).final.log)) ∧
    ((∀ o ∈ opts, Opt.red o = none ∧ Opt.green o = none ∧ Opt.blue o = none ∧
        Opt.gamma o = none) →
      (main powf env opts).outcome = Outcome.exit 0 ∧
        (main powf env opts).final.log = [Act.stdout help_text]) := by
  obtain ⟨oi, c, g, hparse, h0, h1, h2, h3⟩ :=
    parse_options_run env opts hok State.init 0 (fun _ => F32.one) F32.one
  constructor
  · refine ⟨oi, c, g, hparse, h0, h1, h2, h3, ?_, ?_⟩
    · rintro ⟨e0, e1, e2, eg⟩
      exact help_run powf env opts oi c g hparse ((no_effect_iff c g).2 ⟨eg, e0, e1, e2⟩)
    · intro hne
      apply connect_run powf env opts oi c g hparse
      intro h
      obtain ⟨eg, e0, e1, e2⟩ := (no_effect_iff c g).1 h
      exact hne ⟨e0, e1, e2, eg⟩
  · intro hnone
    have hr : opts.filterMap Opt.red = [] :=
      List.filterMap_eq_nil_iff.2 (fun o ho => (hnone o ho).1)
    have hg : opts.filterMap Opt.green = [] :=
      List.filterMap_eq_nil_iff.2 (fun o ho => (hnone o ho).2.1)
    have hb : opts.filterMap Opt.blue = [] :=
      List.filterMap_eq_nil_iff.2 (fun o ho => (hnone o ho).2.2.1)
    have hG : opts.filterMap Opt.gamma = [] :=
      List.filterMap_eq_nil_iff.2 (fun o ho => (hnone o ho).2.2.2)
    rw [hr] at h0
    rw [hg] at h1
    rw [hb] at h2
    rw [hG] at h3
    apply help_run powf env opts oi c g hparse
    rw [no_effect_iff, h0, h1, h2, h3]
    exact ⟨eq_one_one, eq_one_one, eq_one_one, eq_one_one⟩

/-- The run with the single option `-o 1`, from `no_op_configuration`. -/
theorem no_op_configuration_witness :
    (main powf_fixed env_two_outputs [Opt.o "1" (some 1)]).outcome = Outcome.exit 0 ∧
      (main powf_fixed env_two_outputs [Opt.o "1" (some 1)]).final.log =
        [Act.stdout help_text] :=
  (no_op_configuration powf_fixed env_two_outputs [Opt.o "1" (some 1)]
    (by intro o ho; simp at ho; subst ho; simp [Opt.converts])).2
    (by intro o ho; simp at ho; subst ho; exact ⟨rfl, rfl, rfl, rfl⟩)

/-! ## Failures of the set-up -/

theorem msg_no_index_ne (oi : Int) (other : String)
    (h : ¬ ("The Wayland server did not provide output with index '".data <+: other.data)) :
    msg_no_index oi ≠ other := by
  intro e
  apply h
  rw [← e]
  unfold msg_no_index
  rw [String.data_append, String.data_append, List.append_assoc]
  exact List.prefix_append _ _

theorem messages_nodup (oi : Int) :
    [msg_no_manager, msg_no_outputs, msg_no_index oi, msg_no_control, msg_no_size].Nodup := by
  have h1 : msg_no_index oi ≠ msg_no_manager := msg_no_index_ne oi _ (by decide)
  have h2 : msg_no_index oi ≠ msg_no_outputs := msg_no_index_ne oi _ (by decide)
  have h3 : msg_no_index oi ≠ msg_no_control := msg_no_index_ne oi _ (by decide)
  have h4 : msg_no_index oi ≠ msg_no_size := msg_no_index_ne oi _ (by decide)
  have h5 : msg_no_manager ≠ msg_no_outputs := by decide
  have h6 : msg_no_manager ≠ msg_no_control := by decide
  have h7 : msg_no_manager ≠ msg_no_size := by decide
  have h8 : msg_no_outputs ≠ msg_no_control := by decide
  have h9 : msg_no_outputs ≠ msg_no_size := by decide
  have h10 : msg_no_control ≠ msg_no_size := by decide
  simp only [List.nodup_cons, List.mem_cons, List.mem_singleton, List.not_mem_nil,
    List.nodup_nil, not_or, not_false_eq_true, and_true]
  exact ⟨⟨h5, h1.symm, h6, h7⟩, ⟨h2.symm, h8, h9⟩, ⟨h3, h4⟩, h10⟩

theorem no_shm_of_setup {l : List Act}
    (h : ∀ a ∈ l, a = Act.wl_display_connect ∨ a = Act.wl_display_get_registry ∨
      (∃ t, a = Act.get_gamma_control t) ∨ Act.passive a) :
    Act.shm_open ∉ l ∧ ∀ fd, Act.set_gamma fd ∉ l := by
  constructor
  · intro hm
    rcases h _ hm with h1 | h1 | ⟨t, h1⟩ | h1
    · cases h1
    · cases h1
    · cases h1
    · exact h1
  · intro fd hm
    rcases h _ hm with h1 | h1 | ⟨t, h1⟩ | h1
    · cases h1
    · cases h1
    · cases h1
    · exact h1

theorem fail_discover_mem (env : Env) (msg : String) {a : Act}
    (h : a ∈ (finish ((stage_discover env).emit (Act.stderr msg)) 1).final.log) :
    a = Act.wl_display_connect ∨ a = Act.wl_display_get_registry ∨ Act.passive a := by
  rcases fail_mem _ _ _ h with h1 | h1
  · exact stage_discover_mem env h1
  · exact Or.inr (Or.inr h1)

theorem fail_discover_setup (env : Env) (msg : String) {a : Act}
    (h : a ∈ (finish ((stage_discover env).emit (Act.stderr msg)) 1).final.log) :
    a = Act.wl_display_connect ∨ a = Act.wl_display_get_registry ∨
      (∃ t, a = Act.get_gamma_control t) ∨ Act.passive a := by
  rcases fail_discover_mem env msg h with h1 | h1 | h1
  · exact Or.inl h1
  · exact Or.inr (Or.inl h1)
  · exact Or.inr (Or.inr (Or.inr h1))

theorem fail_bind_setup (env : Env) (oi : Int) (msg : String) {a : Act}
    (h : a ∈ (finish ((stage_bind env oi).emit (Act.stderr msg)) 1).final.log) :
    a = Act.wl_display_connect ∨ a = Act.wl_display_get_registry ∨
      (∃ t, a = Act.get_gamma_control t) ∨ Act.passive a := by
  rcases fail_mem _ _ _ h with h1 | h1
  · exact stage_bind_mem env oi h1
  · exact Or.inr (Or.inr (Or.inr h1))

theorem fail_size_setup (env : Env) (oi : Int) (msg : String) {a : Act}
    (h : a ∈ (finish ((stage_size env oi).emit (Act.stderr msg)) 1).final.log) :
    a = Act.wl_display_connect ∨ a = Act.wl_display_get_registry ∨
      (∃ t, a = Act.get_gamma_control t) ∨ Act.passive a := by
  rcases fail_mem _ _ _ h with h1 | h1
  · exact stage_size_mem env oi h1
  · exact Or.inr (Or.inr (Or.inr h1))

theorem msgs_ne_failed (oi : Int) :
    ∀ m ∈ [msg_no_manager, msg_no_outputs, msg_no_index oi, msg_no_control, msg_no_size],
      m ≠ msg_failed := by
  intro m hm
  simp only [List.mem_cons, List.mem_singleton, List.not_mem_nil, or_false] at hm
  rcases hm with h | h | h | h | h
  · rw [h]; decide
  · rw [h]; decide
  · rw [h]; exact msg_no_index_ne oi _ (by decide)
  · rw [h]; decide
  · rw [h]; decide

/-- A run that ends by reporting `msg` from a stage whose only messages are those
of `on_gamma_control_failed` has `msg` in its log and none of the other four. -/
theorem reports_only (oi : Int) (s : State) (msg : String)
    (hs : ∀ m, Act.stderr m ∈ s.log → m = msg_failed) :
    Act.stderr msg ∈ (finish (s.emit (Act.stderr msg)) 1).final.log ∧
      ∀ m ∈ [msg_no_manager, msg_no_outputs, msg_no_index oi, msg_no_control, msg_no_size],
        Act.stderr m ∈ (finish (s.emit (Act.stderr msg)) 1).final.log → m = msg := by
  refine ⟨fail_msg_mem _ _ _, ?_⟩
  intro m hm hmem
  rcases fail_stderr _ _ _ hmem with h | h
  · exact absurd (hs m h) (msgs_ne_failed oi m hm)
  · exact h

/-- The run of `main` once the options gave an effective configuration and the
connection succeeded. -/
theorem main_connected (powf : F32 → F32 → F32) (env : Env) (opts : List Opt) (oi : Int)
    (c : Nat → F32) (g : F32)
    (hparse : parse_options env opts State.init 0 (fun _ => F32.one) F32.one = Parsed.run oi c g)
    (heff : no_effect c g = false) (hconn : env.connect ≠ 0) :
    main powf env opts =
      if (stage_discover env).gamma_control_manager = 0 then
        finish ((stage_discover env).emit (Act.stderr msg_no_manager)) 1
      else if (stage_discover env).output_count = 0 then
        finish ((stage_discover env).emit (Act.stderr msg_no_outputs)) 1
      else if ((stage_discover env).output_count : Int) ≤ oi then
        finish ((stage_discover env).emit (Act.stderr (msg_no_index oi))) 1
      else if output_at (wl_display_roundtrip env 1 (stage_discover env)) oi = none then
        { outcome := Outcome.fault, final := stage_bind env oi }
      else if env.get_gamma_control = 0 then
        finish ((stage_bind env oi).emit (Act.stderr msg_no_control)) 1
      else if (stage_size env oi).gamma_size = 0 then
        finish ((stage_size env oi).emit (Act.stderr msg_no_size)) 1
      else main_shm powf env c g (stage_size env oi) := by
  rw [main_run powf env opts oi c g hparse, if_neg (by simp [heff]),
    if_neg (show ¬ (stage_connect env).display = 0 from hconn)]
  rfl

/-- C8, as amended: for every run of `main` with an effective configuration and
a successful connection, each of the conditions (no gamma-control manager
advertised in the first round trip), (no output discovered), (index not below the
output count) and, for an index that is not negative, (`get_gamma_control` returns
`NULL`), (ramp size still 0 after the third round trip) makes `main` return 1
without calling `shm_open` and without sending `set_gamma`. The first condition
that holds, in this order, has its message written and none of the other four;
the five messages are pairwise distinct; a missing manager is reported whatever
the output count and the index are. A `failed` event of the compositor is only
written to the error stream: it changes neither the ramp size nor the control, so
a rejected session is fatal only through the ramp size. (A negative index past the
index check is not covered.) -/
theorem fatal_setup_failures (powf : F32 → F32 → F32) (env : Env) (opts : List Opt)
    (oi : Int) (c : Nat → F32) (g : F32)
    (hparse : parse_options env opts State.init 0 (fun _ => F32.one) F32.one = Parsed.run oi c g)
    (heff : no_effect c g = false) (hconn : env.connect ≠ 0) :
    (((stage_discover env).gamma_control_manager = 0 ∨ (stage_discover env).output_count = 0 ∨
        ((stage_discover env).output_count : Int) ≤ oi ∨
        (0 ≤ oi ∧ (env.get_gamma_control = 0 ∨ (stage_size env oi).gamma_size = 0))) →
      (main powf env opts).outcome = Outcome.exit 1 ∧
        Act.shm_open ∉ (main powf env opts).final.log ∧
        ∀ fd, Act.set_gamma fd ∉ (main powf env opts).final.log) ∧
    ((stage_discover env).gamma_control_manager = 0 →
      Act.stderr msg_no_manager ∈ (main powf env opts).final.log ∧
      ∀ m ∈ [msg_no_manager, msg_no_outputs, msg_no_index oi, msg_no_control, msg_no_size],
        Act.stderr m ∈ (main powf env opts).final.log → m = msg_no_manager) ∧
    ((stage_discover env).gamma_control_manager ≠ 0 → (stage_discover env).output_count = 0 →
      Act.stderr msg_no_outputs ∈ (main powf env opts).final.log ∧
      ∀ m ∈ [msg_no_manager, msg_no_outputs, msg_no_index oi, msg_no_control, msg_no_size],
        Act.stderr m ∈ (main powf env opts).final.log → m = msg_no_outputs) ∧
    ((stage_discover env).gamma_control_manager ≠ 0 → (stage_discover env).output_count ≠ 0 →
      ((stage_discover env).output_count : Int) ≤ oi →
      Act.stderr (msg_no_index oi) ∈ (main powf env opts).final.log ∧
      ∀ m ∈ [msg_no_manager, msg_no_outputs, msg_no_index oi, msg_no_control, msg_no_size],
        Act.stderr m ∈ (main powf env opts).final.log → m = msg_no_index oi) ∧
    ((stage_discover env).gamma_control_manager ≠ 0 → 0 ≤ oi →
      oi < ((stage_discover env).output_count : Int) → env.get_gamma_control = 0 →
      Act.stderr msg_no_control ∈ (main powf env opts).final.log ∧
      ∀ m ∈ [msg_no_manager, msg_no_outputs, msg_no_index oi, msg_no_control, msg_no_size],
        Act.stderr m ∈ (main powf env opts).final.log → m = msg_no_control) ∧
    ((stage_discover env).gamma_control_manager ≠ 0 → 0 ≤ oi →
      oi < ((stage_discover env).output_count : Int) → env.get_gamma_control ≠ 0 →
      (stage_size env oi).gamma_size = 0 →
      Act.stderr msg_no_size ∈ (main powf env opts).final.log ∧
      ∀ m ∈ [msg_no_manager, msg_no_outputs, msg_no_index oi, msg_no_control, msg_no_size],
        Act.stderr m ∈ (main powf env opts).final.log → m = msg_no_size) ∧
    [msg_no_manager, msg_no_outputs, msg_no_index oi, msg_no_control, msg_no_size].Nodup ∧
    (∀ s : State, (on_gamma_control_failed s).gamma_size = s.gamma_size ∧
      (on_gamma_control_failed s).gamma_control = s.gamma_control ∧
      (on_gamma_control_failed s).log = s.log ++ [Act.stderr msg_failed]) := by
  rw [main_connected powf env opts oi c g hparse heff hconn]
  refine ⟨?_, ?_, ?_, ?_, ?_, ?_, messages_nodup oi, fun s => ⟨rfl, rfl, rfl⟩⟩
  · intro hcond
    by_cases h1 : (stage_discover env).gamma_control_manager = 0
    · rw [if_pos h1]
      exact ⟨rfl, no_shm_of_setup (fun a ha => fail_discover_setup env _ ha)⟩
    rw [if_neg h1]
    by_cases h2 : (stage_discover env).output_count = 0
    · rw [if_pos h2]
      exact ⟨rfl, no_shm_of_setup (fun a ha => fail_discover_setup env _ ha)⟩
    rw [if_neg h2]
    by_cases h3 : ((stage_discover env).output_count : Int) ≤ oi
    · rw [if_pos h3]
      exact ⟨rfl, no_shm_of_setup (fun a ha => fail_discover_setup env _ ha)⟩
    rw [if_neg h3]
    rcases hcond with h | h | h | ⟨h0, h⟩
    · exact absurd h h1
    · exact absurd h h2
    · exact absurd h h3
    · rw [if_neg (output_at_ne_none env oi h0 (by omega))]
      by_cases h4 : env.get_gamma_control = 0
      · rw [if_pos h4]
        exact ⟨rfl, no_shm_of_setup (fun a ha => fail_bind_setup env oi _ ha)⟩
      rw [if_neg h4]
      by_cases h5 : (stage_size env oi).gamma_size = 0
      · rw [if_pos h5]
        exact ⟨rfl, no_shm_of_setup (fun a ha => fail_size_setup env oi _ ha)⟩
      · rcases h with h | h
        · exact absurd h h4
        · exact absurd h h5
  · intro h1
    rw [if_pos h1]
    exact reports_only oi _ _ (fun m hm => stage_discover_stderr env hm)
  · intro h1 h2
    rw [if_neg h1, if_pos h2]
    exact reports_only oi _ _ (fun m hm => stage_discover_stderr env hm)
  · intro h1 h2 h3
    rw [if_neg h1, if_neg h2, if_pos h3]
    exact reports_only oi _ _ (fun m hm => stage_discover_stderr env hm)
  · intro h1 h0 h3 h4
    rw [if_neg h1, if_neg (by omega), if_neg (by omega),
      if_neg (output_at_ne_none env oi h0 h3), if_pos h4]
    exact reports_only oi _ _ (fun m hm => stage_bind_stderr env oi hm)
  · intro h1 h0 h3 h4 h5
    rw [if_neg h1, if_neg (by omega), if_neg (by omega),
      if_neg (output_at_ne_none env oi h0 h3), if_neg h4, if_pos h5]
    exact reports_only oi _ _ (fun m hm => stage_size_stderr env oi hm)

/-- The run `-r 0.5 -o 3` against two outputs, from `fatal_setup_failures`. -/
theorem fatal_setup_failures_witness :
    Act.stderr (msg_no_index 3) ∈
      (main powf_fixed env_two_outputs (Opt.o "3" (some 3) :: opts_red_half)).final.log :=
  ((fatal_setup_failures powf_fixed env_two_outputs (Opt.o "3" (some 3) :: opts_red_half) 3
    (Function.update (fun _ => F32.one) 0 (F32.fin false (1 / 2))) F32.one rfl (by decide!)
    (by decide)).2.2.2.1 (by decide!) (by decide!) (by decide!)).1

/-- C8 as stated fails twice. A session the compositor rejects with `failed`
after it has reported the ramp size is not fatal: the run `-r 0.5` writes the
message of `on_gamma_control_failed`, sends `set_gamma` and returns 0. And with
the index `-1` (read from `-o -1`) a `NULL` gamma control does not make `main`
return 1 with its message: the read of `outputs[-1]` comes first and the run is
a fault. -/
theorem setup_failure_not_fatal :
    (main powf_fixed env_failed_after_size opts_red_half).outcome = Outcome.exit 0 ∧
    Act.stderr msg_failed ∈ (main powf_fixed env_failed_after_size opts_red_half).final.log ∧
    Act.set_gamma 3 ∈ (main powf_fixed env_failed_after_size opts_red_half).final.log ∧
    env_no_control.get_gamma_control = 0 ∧
    (main powf_fixed env_no_control
      (Opt.o "-1" (some (2 ^ 64 - 1)) :: opts_red_half)).outcome = Outcome.fault ∧
    Act.stderr msg_no_control ∉
      (main powf_fixed env_no_control
        (Opt.o "-1" (some (2 ^ 64 - 1)) :: opts_red_half)).final.log := by
  refine ⟨?_, ?_, ?_, ?_, ?_, ?_⟩ <;> decide!

/-! ## Selection of the output -/

/-- C9 at its failing input: `mmap` returns `MAP_FAILED` in the run `-r 0.5`
against two outputs. The test `shm_data < 0` does not fire: no message is
written and `main` does not return 1; it calls `fill_gamma_table`, whose first
store goes through `MAP_FAILED`. -/
theorem mmap_failure_undetected :
    env_mmap_fails.mmap = MAP_FAILED ∧
    (main powf_fixed env_mmap_fails opts_red_half).outcome = Outcome.fault ∧
    (main powf_fixed env_mmap_fails opts_red_half).final.log =
      [Act.wl_display_connect, Act.wl_display_get_registry, Act.wl_display_roundtrip,
        Act.wl_display_roundtrip, Act.get_gamma_control (some 2002),
        Act.wl_display_roundtrip, Act.shm_open, Act.shm_unlink, Act.ftruncate 24,
        Act.mmap 24, Act.fill_gamma_table] := by
  refine ⟨?_, ?_, ?_⟩ <;> decide!

/-! ## Further properties of the run -/

/-- With `-o -1`, which `strtoul` reads as `ULONG_MAX` and `output_index` holds as
`-1`, and two discovered outputs, the test `output_count <= output_index` does not
fire: no index message is written, and a gamma control is requested for
`outputs[-1]`, which is outside the array. -/
theorem negative_index_passes_guard :
    int_of_ulong (2 ^ 64 - 1) = -1 ∧ int_of_ulong 4294967295 = -1 ∧
    Act.get_gamma_control none ∈
      (main powf_fixed env_two_outputs
        (Opt.o "-1" (some (2 ^ 64 - 1)) :: opts_red_half)).final.log ∧
    Act.stderr (msg_no_index (-1)) ∉
      (main powf_fixed env_two_outputs
        (Opt.o "-1" (some (2 ^ 64 - 1)) :: opts_red_half)).final.log := by
  refine ⟨?_, ?_, ?_, ?_⟩ <;> decide!

/-- The options `-h` and `-v` print their text and return 0 without any other
action, whatever follows them. -/
theorem help_and_version (powf : F32 → F32 → F32) (env : Env) (rest : List Opt) :
    (main powf env (Opt.h :: rest)).outcome = Outcome.exit 0 ∧
    (main powf env (Opt.h :: rest)).final.log = [Act.stdout help_text] ∧
    (main powf env (Opt.v :: rest)).outcome = Outcome.exit 0 ∧
    (main powf env (Opt.v :: rest)).final.log = [Act.stdout version_text] :=
  ⟨rfl, rfl, rfl, rfl⟩

/-- An option argument that does not convert ends the run with return code 1 and
the message of that option, without any other action. -/
theorem invalid_argument (powf : F32 → F32 → F32) (env : Env) (optarg : String)
    (rest : List Opt) :
    (main powf env (Opt.o optarg none :: rest)).outcome = Outcome.exit 1 ∧
    (main powf env (Opt.o optarg none :: rest)).final.log =
      [Act.stderr ("Invalid output index '" ++ optarg ++ "' supplied.\n")] ∧
    (main powf env (Opt.r optarg none :: rest)).outcome = Outcome.exit 1 ∧
    (main powf env (Opt.r optarg none :: rest)).final.log =
      [Act.stderr ("Invalid red component '" ++ optarg ++ "' supplied.\n")] ∧
    (main powf env (Opt.g optarg none :: rest)).outcome = Outcome.exit 1 ∧
    (main powf env (Opt.g optarg none :: rest)).final.log =
      [Act.stderr ("Invalid green component '" ++ optarg ++ "' supplied.\n")] ∧
    (main powf env (Opt.b optarg none :: rest)).outcome = Outcome.exit 1 ∧
    (main powf env (Opt.b optarg none :: rest)).final.log =
      [Act.stderr ("Invalid blue component '" ++ optarg ++ "' supplied.\n")] ∧
    (main powf env (Opt.G optarg none :: rest)).outcome = Outcome.exit 1 ∧
    (main powf env (Opt.G optarg none :: rest)).final.log =
      [Act.stderr ("Invalid gamma value '" ++ optarg ++ "' supplied.\n")] :=
  ⟨rfl, rfl, rfl, rfl, rfl, rfl, rfl, rfl, rfl, rfl⟩

/-- The option `-l` against a compositor without outputs prints the heading and
`No outputs available.` and returns 0. -/
theorem list_without_outputs :
    (main powf_fixed env_no_outputs [Opt.l]).outcome = Outcome.exit 0 ∧
    (main powf_fixed env_no_outputs [Opt.l]).final.log =
      [Act.stdout "Outputs:\n", Act.wl_display_connect, Act.wl_display_get_registry,
        Act.wl_display_roundtrip, Act.wl_display_roundtrip,
        Act.stdout "\tNo outputs available.", Act.gamma_control_manager_destroy,
        Act.wl_registry_destroy, Act.wl_display_disconnect] := by
  constructor <;> decide!

/-- The actions a run may have logged once `main_shm` has ended in a failure of
`shm_open`, `shm_unlink` or `ftruncate`. -/
theorem main_shm_failure (powf : F32 → F32 → F32) (env : Env) (c : Nat → F32) (g : F32)
    (s : State) (h : env.shm_open < 0 ∨ env.shm_unlink < 0 ∨ env.ftruncate < 0) :
    (main_shm powf env c g s).outcome = Outcome.exit 1 ∧
      ∀ a ∈ (main_shm powf env c g s).final.log,
        a ∈ s.log ∨ a = Act.shm_open ∨ a = Act.shm_unlink ∨ (∃ n, a = Act.ftruncate n) ∨
          Act.passive a := by
  unfold main_shm
  by_cases h1 : env.shm_open < 0
  · rw [if_pos (show (stage_shm_open env s).shm_fd < 0 from h1)]
    refine ⟨rfl, fun a ha => ?_⟩
    rcases fail_mem _ _ _ ha with h2 | h2
    · rw [stage_shm_open_log] at h2
      rcases List.mem_append.1 h2 with h4 | h4
      · exact Or.inl h4
      · exact Or.inr (Or.inl (List.mem_singleton.1 h4))
    · exact Or.inr (Or.inr (Or.inr (Or.inr h2)))
  · rw [if_neg (show ¬ (stage_shm_open env s).shm_fd < 0 from h1)]
    by_cases h2 : env.shm_unlink < 0
    · rw [if_pos h2]
      refine ⟨rfl, fun a ha => ?_⟩
      rcases fail_mem _ _ _ ha with h3 | h3
      · have h4 : a ∈ (stage_shm_open env s).log ++ [Act.shm_unlink] := h3
        rw [stage_shm_open_log] at h4
        rcases List.mem_append.1 h4 with h5 | h5
        · rcases List.mem_append.1 h5 with h6 | h6
          · exact Or.inl h6
          · exact Or.inr (Or.inl (List.mem_singleton.1 h6))
        · exact Or.inr (Or.inr (Or.inl (List.mem_singleton.1 h5)))
      · exact Or.inr (Or.inr (Or.inr (Or.inr h3)))
    · rw [if_neg h2]
      have h3 : env.ftruncate < 0 := by
        rcases h with h | h | h
        · exact absurd h h1
        · exact absurd h h2
        · exact h
      rw [if_pos h3]
      refine ⟨rfl, fun a ha => ?_⟩
      rcases fail_mem _ _ _ ha with h4 | h4
      · have h5 : a ∈ ((stage_shm_open env s).log ++ [Act.shm_unlink]) ++
            [Act.ftruncate (gamma_table_size s.gamma_size)] := h4
        rw [stage_shm_open_log] at h5
        rcases List.mem_append.1 h5 with h6 | h6
        · rcases List.mem_append.1 h6 with h7 | h7
          · rcases List.mem_append.1 h7 with h8 | h8
            · exact Or.inl h8
            · exact Or.inr (Or.inl (List.mem_singleton.1 h8))
          · exact Or.inr (Or.inr (Or.inl (List.mem_singleton.1 h7)))
        · exact Or.inr (Or.inr (Or.inr (Or.inl ⟨_, List.mem_singleton.1 h6⟩)))
      · exact Or.inr (Or.inr (Or.inr (Or.inr h4)))

/-- For every run of `main` that reaches the shared buffer (effective
configuration, connection made, index not negative, all five set-up checks
passed): if `shm_open`,
`shm_unlink` or `ftruncate` fails, `main` returns 1 and neither maps the buffer,
nor calls `fill_gamma_table`, nor sends `set_gamma`. -/
theorem shm_failures_fatal (powf : F32 → F32 → F32) (env : Env) (opts : List Opt)
    (oi : Int) (c : Nat → F32) (g : F32)
    (hparse : parse_options env opts State.init 0 (fun _ => F32.one) F32.one = Parsed.run oi c g)
    (heff : no_effect c g = false) (hconn : env.connect ≠ 0)
    (h1 : (stage_discover env).gamma_control_manager ≠ 0)
    (h2 : (stage_discover env).output_count ≠ 0)
    (h3 : ¬ ((stage_discover env).output_count : Int) ≤ oi) (h0 : 0 ≤ oi)
    (h4 : env.get_gamma_control ≠ 0) (h5 : (stage_size env oi).gamma_size ≠ 0)
    (hfail : env.shm_open < 0 ∨ env.shm_unlink < 0 ∨ env.ftruncate < 0) :
    (main powf env opts).outcome = Outcome.exit 1 ∧
    (∀ n, Act.mmap n ∉ (main powf env opts).final.log) ∧
    Act.fill_gamma_table ∉ (main powf env opts).final.log ∧
    ∀ fd, Act.set_gamma fd ∉ (main powf env opts).final.log := by
  rw [main_connected powf env opts oi c g hparse heff hconn, if_neg h1, if_neg h2, if_neg h3,
    if_neg (output_at_ne_none env oi h0 (by omega)), if_neg h4, if_neg h5]
  obtain ⟨ho, hl⟩ := main_shm_failure powf env c g (stage_size env oi) hfail
  have key : ∀ a ∈ (main_shm powf env c g (stage_size env oi)).final.log,
      a = Act.wl_display_connect ∨ a = Act.wl_display_get_registry ∨
        (∃ t, a = Act.get_gamma_control t) ∨ a = Act.shm_open ∨ a = Act.shm_unlink ∨
        (∃ n, a = Act.ftruncate n) ∨ Act.passive a := by
    intro a ha
    rcases hl a ha with h | h | h | h | h
    · rcases stage_size_mem env oi h with h' | h' | h' | h'
      · exact Or.inl h'
      · exact Or.inr (Or.inl h')
      · exact Or.inr (Or.inr (Or.inl h'))
      · exact Or.inr (Or.inr (Or.inr (Or.inr (Or.inr (Or.inr h')))))
    · exact Or.inr (Or.inr (Or.inr (Or.inl h)))
    · exact Or.inr (Or.inr (Or.inr (Or.inr (Or.inl h))))
    · exact Or.inr (Or.inr (Or.inr (Or.inr (Or.inr (Or.inl h)))))
    · exact Or.inr (Or.inr (Or.inr (Or.inr (Or.inr (Or.inr h)))))
  refine ⟨ho, ?_, ?_, ?_⟩
  · intro n hm
    rcases key _ hm with h | h | ⟨t, h⟩ | h | h | ⟨k, h⟩ | h
    all_goals first | exact h | cases h
  · intro hm
    rcases key _ hm with h | h | ⟨t, h⟩ | h | h | ⟨k, h⟩ | h
    all_goals first | exact h | cases h
  · intro fd hm
    rcases key _ hm with h | h | ⟨t, h⟩ | h | h | ⟨k, h⟩ | h
    all_goals first | exact h | cases h

/-- The run `-r 0.5` against two outputs when `ftruncate` fails, from
`shm_failures_fatal`. -/
theorem shm_failures_fatal_witness :
    (main powf_fixed { env_two_outputs with ftruncate := -1 } opts_red_half).outcome =
      Outcome.exit 1 :=
  (shm_failures_fatal powf_fixed { env_two_outputs with ftruncate := -1 } opts_red_half 0
    (Function.update (fun _ => F32.one) 0 (F32.fin false (1 / 2))) F32.one rfl (by decide!)
    (by decide) (by decide!) (by decide!) (by decide!) (by decide) (by decide) (by decide!)
    (Or.inr (Or.inr (by decide)))).1

theorem session_loop_grows (env : Env) :
    ∀ (n k : Nat) (s : State), Grows s (session_loop env n k s) := by
  intro n
  induction n with
  | zero => intro k s; exact Grows.refl s
  | succ n ih =>
    intro k s
    exact (roundtrip_grows env k s).trans (ih (k + 1) _)

/-- The log of `main_shm` when the three calls and the mapping succeed. -/
theorem main_shm_success (powf : F32 → F32 → F32) (env : Env) (c : Nat → F32) (g : F32)
    (s : State) (h1 : ¬ env.shm_open < 0) (h2 : ¬ env.shm_unlink < 0)
    (h3 : ¬ env.ftruncate < 0)
    (h4 : ¬ (env.mmap = MAP_FAILED ∨
      gamma_table_size s.gamma_size ≠ channel_count * 2 * s.gamma_size)) :
    ∃ post, (main_shm powf env c g s).final.log =
        (s.log ++ [Act.shm_open, Act.shm_unlink, Act.ftruncate (gamma_table_size s.gamma_size),
          Act.mmap (gamma_table_size s.gamma_size)]) ++
          [Act.fill_gamma_table, Act.set_gamma env.shm_open] ++ post ∧
      ∀ a ∈ post, Act.passive a := by
  unfold main_shm
  rw [if_neg (show ¬ (stage_shm_open env s).shm_fd < 0 from h1), if_neg h2, if_neg h3,
    if_neg (Nat.not_lt_zero _),
    if_neg (show ¬ ((stage_mmap env s).shm_data = MAP_FAILED ∨
      gamma_table_size s.gamma_size ≠ channel_count * 2 * s.gamma_size) from h4)]
  cases env.loop with
  | none =>
    refine ⟨[], ?_, by simp⟩
    show (stage_set_gamma powf env c g s).log = _
    rw [stage_set_gamma_log, List.append_nil]
  | some n =>
    obtain ⟨post, e, hp⟩ :=
      (session_loop_grows env n 3 (stage_set_gamma powf env c g s)).trans (finish_grows _ 0)
    refine ⟨post, ?_, hp⟩
    show (finish (session_loop env n 3 (stage_set_gamma powf env c g s)) 0).final.log = _
    rw [e, stage_set_gamma_log]

/-- The log of `main_shm` when `mmap` fails or the table does not fit the
mapping. -/
theorem main_shm_fault (powf : F32 → F32 → F32) (env : Env) (c : Nat → F32) (g : F32)
    (s : State) (h1 : ¬ env.shm_open < 0) (h2 : ¬ env.shm_unlink < 0)
    (h3 : ¬ env.ftruncate < 0)
    (h4 : env.mmap = MAP_FAILED ∨
      gamma_table_size s.gamma_size ≠ channel_count * 2 * s.gamma_size) :
    (main_shm powf env c g s).outcome = Outcome.fault ∧
      (main_shm powf env c g s).final.log =
        s.log ++ [Act.shm_open, Act.shm_unlink, Act.ftruncate (gamma_table_size s.gamma_size),
          Act.mmap (gamma_table_size s.gamma_size), Act.fill_gamma_table] := by
  unfold main_shm
  rw [if_neg (show ¬ (stage_shm_open env s).shm_fd < 0 from h1), if_neg h2, if_neg h3,
    if_neg (Nat.not_lt_zero _),
    if_pos (show (stage_mmap env s).shm_data = MAP_FAILED ∨
      gamma_table_size s.gamma_size ≠ channel_count * 2 * s.gamma_size from h4)]
  refine ⟨rfl, ?_⟩
  show (stage_mmap env s).log ++ [Act.fill_gamma_table] = _
  rw [stage_mmap_log]
  simp only [List.append_assoc, List.cons_append, List.nil_append]

theorem set_gamma_of_main_shm (powf : F32 → F32 → F32) (env : Env) (c : Nat → F32) (g : F32)
    (s : State)
    (hs : ∀ a ∈ s.log, a = Act.wl_display_connect ∨ a = Act.wl_display_get_registry ∨
      (∃ t, a = Act.get_gamma_control t) ∨ Act.passive a)
    (fd : Int) (hmem : Act.set_gamma fd ∈ (main_shm powf env c g s).final.log) :
    0 ≤ env.shm_open ∧ 0 ≤ env.shm_unlink ∧ 0 ≤ env.ftruncate ∧ env.mmap ≠ MAP_FAILED ∧
      fd = env.shm_open ∧
      ∃ pre post, (main_shm powf env c g s).final.log =
        pre ++ [Act.fill_gamma_table, Act.set_gamma fd] ++ post ∧
        Act.set_gamma fd ∉ pre ∧ Act.set_gamma fd ∉ post := by
  have hs' : Act.set_gamma fd ∉ s.log := (no_shm_of_setup hs).2 fd
  by_cases hfail : env.shm_open < 0 ∨ env.shm_unlink < 0 ∨ env.ftruncate < 0
  · exfalso
    rcases (main_shm_failure powf env c g s hfail).2 _ hmem with h | h | h | ⟨n, h⟩ | h
    · exact hs' h
    · cases h
    · cases h
    · cases h
    · exact h
  · have h1 : ¬ env.shm_open < 0 := fun h => hfail (Or.inl h)
    have h2 : ¬ env.shm_unlink < 0 := fun h => hfail (Or.inr (Or.inl h))
    have h3 : ¬ env.ftruncate < 0 := fun h => hfail (Or.inr (Or.inr h))
    by_cases h4 : env.mmap = MAP_FAILED ∨
        gamma_table_size s.gamma_size ≠ channel_count * 2 * s.gamma_size
    · exfalso
      rw [(main_shm_fault powf env c g s h1 h2 h3 h4).2] at hmem
      rcases List.mem_append.1 hmem with h | h
      · exact hs' h
      · simp at h
    · obtain ⟨post, e, hp⟩ := main_shm_success powf env c g s h1 h2 h3 h4
      have hpost : ∀ x, Act.set_gamma x ∉ post := fun x hx => hp _ hx
      have hpre : ∀ x, Act.set_gamma x ∉ s.log ++ [Act.shm_open, Act.shm_unlink,
          Act.ftruncate (gamma_table_size s.gamma_size),
          Act.mmap (gamma_table_size s.gamma_size)] := by
        intro x hx
        rcases List.mem_append.1 hx with h | h
        · exact (no_shm_of_setup hs).2 x h
        · simp at h
      have hfd : fd = env.shm_open := by
        rw [e] at hmem
        rcases List.mem_append.1 hmem with h | h
        · rcases List.mem_append.1 h with h' | h'
          · exact absurd h' (hpre fd)
          · simp at h'
            exact h'
        · exact absurd h (hpost fd)
      refine ⟨by omega, by omega, by omega, fun h => h4 (Or.inl h), hfd,
        s.log ++ [Act.shm_open, Act.shm_unlink, Act.ftruncate (gamma_table_size s.gamma_size),
          Act.mmap (gamma_table_size s.gamma_size)], post, ?_, ?_, ?_⟩
      · rw [hfd]; exact e
      · exact hpre fd
      · exact hpost fd

/-- A `set_gamma` request in the log of a run means that `shm_open`, `shm_unlink`,
`ftruncate` and `mmap` all succeeded; it carries the descriptor `shm_open`
returned, it is sent once, and `fill_gamma_table` is the action right before
it. -/
theorem set_gamma_after_table (powf : F32 → F32 → F32) (env : Env) (opts : List Opt)
    (oi : Int) (c : Nat → F32) (g : F32)
    (hparse : parse_options env opts State.init 0 (fun _ => F32.one) F32.one = Parsed.run oi c g)
    (fd : Int) (hmem : Act.set_gamma fd ∈ (main powf env opts).final.log) :
    0 ≤ env.shm_open ∧ 0 ≤ env.shm_unlink ∧ 0 ≤ env.ftruncate ∧ env.mmap ≠ MAP_FAILED ∧
      fd = env.shm_open ∧
      ∃ pre post, (main powf env opts).final.log =
        pre ++ [Act.fill_gamma_table, Act.set_gamma fd] ++ post ∧
        Act.set_gamma fd ∉ pre ∧ Act.set_gamma fd ∉ post := by
  rw [main_run powf env opts oi c g hparse] at hmem ⊢
  by_cases h0 : no_effect c g = true
  · rw [if_pos h0] at hmem
    exact absurd hmem (by
      show Act.set_gamma fd ∉ [Act.stdout help_text]
      simp)
  rw [if_neg h0] at hmem ⊢
  by_cases h1 : (stage_connect env).display = 0
  · rw [if_pos h1] at hmem
    exfalso
    rcases fail_mem _ _ _ hmem with h | h
    · rw [stage_connect_log] at h
      simp at h
    · exact h
  rw [if_neg h1] at hmem ⊢
  by_cases h2 : (stage_discover env).gamma_control_manager = 0
  · rw [if_pos h2] at hmem
    exact absurd hmem ((no_shm_of_setup (fun a ha => fail_discover_setup env _ ha)).2 fd)
  rw [if_neg h2] at hmem ⊢
  by_cases h3 : (stage_discover env).output_count = 0
  · rw [if_pos h3] at hmem
    exact absurd hmem ((no_shm_of_setup (fun a ha => fail_discover_setup env _ ha)).2 fd)
  rw [if_neg h3] at hmem ⊢
  by_cases h4 : ((stage_discover env).output_count : Int) ≤ oi
  · rw [if_pos h4] at hmem
    exact absurd hmem ((no_shm_of_setup (fun a ha => fail_discover_setup env _ ha)).2 fd)
  rw [if_neg h4] at hmem ⊢
  by_cases hat : output_at (wl_display_roundtrip env 1 (stage_discover env)) oi = none
  · rw [if_pos hat] at hmem
    exact absurd hmem ((no_shm_of_setup (fun a ha => stage_bind_mem env oi ha)).2 fd)
  rw [if_neg hat] at hmem ⊢
  by_cases h5 : (stage_bind env oi).gamma_control = 0
  · rw [if_pos h5] at hmem
    exact absurd hmem ((no_shm_of_setup (fun a ha => fail_bind_setup env oi _ ha)).2 fd)
  rw [if_neg h5] at hmem ⊢
  by_cases h6 : (stage_size env oi).gamma_size = 0
  · rw [if_pos h6] at hmem
    exact absurd hmem ((no_shm_of_setup (fun a ha => fail_size_setup env oi _ ha)).2 fd)
  rw [if_neg h6] at hmem ⊢
  exact set_gamma_of_main_shm powf env c g _ (fun a ha => stage_size_mem env oi ha) fd hmem

/-- The run `-r 0.5` against two outputs, from `set_gamma_after_table`. -/
theorem set_gamma_after_table_witness :
    (3 : Int) = env_two_outputs.shm_open ∧ env_two_outputs.mmap ≠ MAP_FAILED :=
  ⟨(set_gamma_after_table powf_fixed env_two_outputs opts_red_half 0
      (Function.update (fun _ => F32.one) 0 (F32.fin false (1 / 2))) F32.one rfl 3
      (by decide!)).2.2.2.2.1,
    (set_gamma_after_table powf_fixed env_two_outputs opts_red_half 0
      (Function.update (fun _ => F32.one) 0 (F32.fin false (1 / 2))) F32.one rfl 3
      (by decide!)).2.2.2.1⟩

/-- For every run of `main` that reaches the shared buffer (effective
configuration, connection made, index not negative, all five set-up checks
passed) and in which
`shm_open`, `shm_unlink` and `ftruncate` succeed, a failing `mmap` (it returns
`MAP_FAILED`) is not detected: `main` does not return; it calls
`fill_gamma_table`, the last action of the run, whose store faults. -/
theorem mmap_failure_faults (powf : F32 → F32 → F32) (env : Env) (opts : List Opt)
    (oi : Int) (c : Nat → F32) (g : F32)
    (hparse : parse_options env opts State.init 0 (fun _ => F32.one) F32.one = Parsed.run oi c g)
    (heff : no_effect c g = false) (hconn : env.connect ≠ 0)
    (h1 : (stage_discover env).gamma_control_manager ≠ 0)
    (h2 : (stage_discover env).output_count ≠ 0)
    (h3 : ¬ ((stage_discover env).output_count : Int) ≤ oi) (h0 : 0 ≤ oi)
    (h4 : env.get_gamma_control ≠ 0) (h5 : (stage_size env oi).gamma_size ≠ 0)
    (h6 : 0 ≤ env.shm_open) (h7 : 0 ≤ env.shm_unlink) (h8 : 0 ≤ env.ftruncate)
    (hmap : env.mmap = MAP_FAILED) :
    (main powf env opts).outcome = Outcome.fault ∧
    (main powf env opts).final.log =
      (stage_size env oi).log ++
        [Act.shm_open, Act.shm_unlink,
          Act.ftruncate (gamma_table_size (stage_size env oi).gamma_size),
          Act.mmap (gamma_table_size (stage_size env oi).gamma_size), Act.fill_gamma_table] := by
  rw [main_connected powf env opts oi c g hparse heff hconn, if_neg h1, if_neg h2, if_neg h3,
    if_neg (output_at_ne_none env oi h0 (by omega)), if_neg h4, if_neg h5]
  exact main_shm_fault powf env c g (stage_size env oi) (by omega) (by omega) (by omega)
    (Or.inl hmap)

/-- The run `-r 0.5` against two outputs when `mmap` fails, from
`mmap_failure_faults`. -/
theorem mmap_failure_faults_witness :
    (main powf_fixed env_mmap_fails opts_red_half).outcome = Outcome.fault :=
  (mmap_failure_faults powf_fixed env_mmap_fails opts_red_half 0
    (Function.update (fun _ => F32.one) 0 (F32.fin false (1 / 2))) F32.one rfl (by decide!)
    (by decide) (by decide!) (by decide!) (by decide!) (by decide) (by decide) (by decide!)
    (by decide) (by decide) (by decide) rfl).1
end Wlgamma
